import Mathlib

/-! # logman: size-string parsing and the rotation decision

A shallow embedding of `logman.go`.

* A Go `string` is a sequence of bytes: `GoString := List (Fin 256)`.
* A Go `error` built by `errors.New` is its message; `nil` is `none`.
* `int64` values are integers, wrapped with `toInt64` where the source
  computes in 64 bits.
* The standard-library functions the source calls (`strconv.ParseInt`,
  the `string(...)` conversions, `time`, `os`) are modelled next to the
  function that uses them, following the Go library's documented behaviour.
-/

set_option maxRecDepth 100000

namespace Logman

/-! ## Go strings -/

/-- One byte of a Go string. -/
abbrev Byte := Fin 256

/-- Go strings are immutable byte sequences. -/
abbrev GoString := List Byte

/-- Go's conversion `string(r)` of an integer to the UTF-8 encoding of the
rune `r`; integers that are not valid code points give U+FFFD. -/
def encodeRune (r : Int) : GoString :=
  if r < 0 ∨ 0x10FFFF < r ∨ (0xD800 ≤ r ∧ r ≤ 0xDFFF) then [0xEF, 0xBF, 0xBD]
  else
    let n := r.toNat
    if n < 0x80 then [Fin.ofNat n]
    else if n < 0x800 then [Fin.ofNat (0xC0 + n / 64), Fin.ofNat (0x80 + n % 64)]
    else if n < 0x10000 then
      [Fin.ofNat (0xE0 + n / 4096), Fin.ofNat (0x80 + n / 64 % 64), Fin.ofNat (0x80 + n % 64)]
    else
      [Fin.ofNat (0xF0 + n / 262144), Fin.ofNat (0x80 + n / 4096 % 64),
       Fin.ofNat (0x80 + n / 64 % 64), Fin.ofNat (0x80 + n % 64)]

/-- A string literal of the source, as the bytes of its UTF-8 encoding. -/
def lit (s : String) : GoString :=
  s.toList.flatMap (fun c => encodeRune c.toNat)

/-- Wrap-around conversion to `int64`. -/
def toInt64 (x : Int) : Int := (x + 2 ^ 63) % 2 ^ 64 - 2 ^ 63

/-! ## `isLetter` and the unit constants -/

/-- `isLetter`: `('a' <= c && c <= 'z') || ('A' <= c && c <= 'Z')`. -/
def isLetter (c : Byte) : Bool :=
  (97 ≤ c && c ≤ 122) || (65 ≤ c && c ≤ 90)

def B : GoString := lit "B"
def KiB : GoString := lit "KiB"
def MiB : GoString := lit "MiB"
def GiB : GoString := lit "GiB"

/-! ## `strconv.ParseInt(s, 10, 64)` -/

/-- The two error kinds of `strconv`: `ErrSyntax` and `ErrRange`. -/
inductive NumError where
  | ErrSyntax
  | ErrRange
  deriving DecidableEq, Repr

def maxUint64 : Nat := 2 ^ 64 - 1

/-- The digit loop of `strconv.ParseUint` for base 10 and bit size 64, with
`n` the value accumulated so far.  A byte that is not a digit below the base
is a syntax error; an accumulator that would leave 64 bits is a range error,
reported where it is detected. -/
def parseUintLoop : List Byte → Nat → Nat × Option NumError
  | [], n => (n, none)
  | c :: cs, n =>
    let lower := c.val ||| 32
    if 48 ≤ c.val ∧ c.val ≤ 57 then
      let d := c.val - 48
      if 10 ≤ d then (0, some .ErrSyntax)
      else if maxUint64 / 10 + 1 ≤ n then (maxUint64, some .ErrRange)
      else
        let n10 := n * 10
        let n1 := (n10 + d) % 2 ^ 64
        if n1 < n10 ∨ maxUint64 < n1 then (maxUint64, some .ErrRange)
        else parseUintLoop cs n1
    else if 97 ≤ lower ∧ lower ≤ 122 then
      let d := lower - 97 + 10
      if 10 ≤ d then (0, some .ErrSyntax)
      else (0, some .ErrSyntax)
    else (0, some .ErrSyntax)

/-- `strconv.ParseUint(s, 10, 64)`. -/
def ParseUint (s : GoString) : Nat × Option NumError :=
  if s = [] then (0, some .ErrSyntax) else parseUintLoop s 0

/-- `strconv.ParseInt(s, 10, 64)`: an optional sign, then `ParseUint`, then
the range check against `1 << 63`. -/
def ParseInt (s : GoString) : Int × Option NumError :=
  match s with
  | [] => (0, some .ErrSyntax)
  | c :: t =>
    let neg : Bool := c = 45
    let s1 := if c = 43 then t else if c = 45 then t else s
    let r := ParseUint s1
    if r.2 = some .ErrSyntax then (0, some .ErrSyntax)
    else
      let cutoff : Nat := 2 ^ 63
      if !neg ∧ cutoff ≤ r.1 then ((cutoff : Int) - 1, some .ErrRange)
      else if neg ∧ cutoff < r.1 then (-(cutoff : Int), some .ErrRange)
      else
        let n := toInt64 r.1
        (if neg then toInt64 (-n) else n, none)

/-! ## `parseFileSize` -/

/-- The loop `for i := len(size)-1; i >= 0 && isLetter(size[i]); i--` with
body `unit = string(size[i]) + unit`.  The first argument is `i + 1`. -/
def scanUnit (size : GoString) : Nat → GoString → GoString
  | 0, unit => unit
  | i + 1, unit =>
    match size[i]? with
    | none => unit
    | some c =>
      if isLetter c then scanUnit size i (encodeRune c.val ++ unit) else unit

/-- The `switch unit` of `parseFileSize`: the multiplier, or `none` for the
`default` branch. -/
def unitMult (unit : GoString) : Option Nat :=
  if unit = B then some (1 <<< (10 * 0))
  else if unit = KiB then some (1 <<< (10 * 1))
  else if unit = MiB then some (1 <<< (10 * 2))
  else if unit = GiB then some (1 <<< (10 * 3))
  else none

/-- `parseFileSize(size) (sz int64, err error)`.  The slice
`size[:len(size)-len(unit)]` is in bounds because `unit` holds one byte per
scanned letter. -/
def parseFileSize (size : GoString) : Int × Option GoString :=
  let unit := scanUnit size size.length []
  match unitMult unit with
  | none => (0, some (lit "logman: unknown file size units " ++ lit "'" ++ unit ++ lit "'"))
  | some mult =>
    let r := ParseInt (size.take (size.length - unit.length))
    if r.2 ≠ none then
      (0, some (lit "logman: could not parse file size " ++ lit "'" ++ encodeRune r.1 ++ lit "'"))
    else (toInt64 ((mult : Int) * r.1), none)

/-! ## Vocabulary of the size grammar -/

/-- A decimal digit, `'0' .. '9'`. -/
def isDigit (c : Byte) : Bool := 48 ≤ c.val && c.val ≤ 57

/-- Positional value of a run of decimal digits read after the value `n`. -/
def digitsAcc (n : Nat) (ds : List Byte) : Nat :=
  ds.foldl (fun a c => 10 * a + (c.val - 48)) n

/-- Value of a run of decimal digits. -/
def digitsVal (ds : List Byte) : Nat := digitsAcc 0 ds

/-- The maximal trailing run of ASCII letters of a string. -/
def trailingLetters (s : GoString) : GoString :=
  (s.reverse.takeWhile isLetter).reverse

/-- What is left of a string before its trailing run of letters. -/
def numericPart (s : GoString) : GoString :=
  s.take (s.length - (trailingLetters s).length)

/-- The recognised units with their exponents of 1024. -/
def unitTable : List (GoString × Nat) := [(B, 0), (KiB, 1), (MiB, 2), (GiB, 3)]

/-- The recognised unit tokens. -/
def units : List GoString := [B, KiB, MiB, GiB]

/-- Message of the unknown-unit error for the unit `u`. -/
def unknownUnitMsg (u : GoString) : GoString :=
  lit "logman: unknown file size units '" ++ u ++ lit "'"

/-- Message of the malformed-number error with `r` between the quotes. -/
def couldNotParseMsg (r : GoString) : GoString :=
  lit "logman: could not parse file size '" ++ r ++ lit "'"

/-- The error is the unknown-unit error. -/
def isUnknownUnit (e : Option GoString) : Bool :=
  match e with
  | some m => (lit "logman: unknown file size units ").isPrefixOf m
  | none => false

/-- The error is the malformed-number error. -/
def isMalformedNumber (e : Option GoString) : Bool :=
  match e with
  | some m => (lit "logman: could not parse file size ").isPrefixOf m
  | none => false

/-- The value denoted by an optionally signed, non-empty run of decimal
digits; `none` for any other string. -/
def decimalValue (s : GoString) : Option Int :=
  match s with
  | [] => none
  | c :: t =>
    let body := if c = 43 ∨ c = 45 then t else s
    if body ≠ [] ∧ body.all isDigit then
      some (if c = 45 then -(digitsVal body : Int) else (digitsVal body : Int))
    else none

/-- The string is a base-10 integer that fits in a signed 64-bit integer. -/
def isBase10Int64 (s : GoString) : Bool :=
  match decimalValue s with
  | some v => decide (-(2 : Int) ^ 63 ≤ v ∧ v < 2 ^ 63)
  | none => false

/-! ## Time, the clock and the file system

`time.Time` is modelled as an instant: the number of nanoseconds since the
zero time (January 1 of year 1, 00:00:00 UTC), which is what `IsZero`,
`Add` and `Sub` depend on.  `time.Duration` is a signed 64-bit number of
nanoseconds: `Sub`, and so `time.Since`, gives the largest or the smallest
duration when the difference of two instants does not fit, and quotients and
products of durations are taken in 64 bits.  The model has one clock, read by
`time.Now()`.

The world holds what the operating system contributes: the successive
readings of the clock, the regular files with their contents, the paths on
which `Lstat` or `OpenFile` fail, the space left on the device, the open
file handles, and a record of the calls made. -/

/-- `time.Second`, in nanoseconds. -/
def Second : Int := 1000000000

/-- `Time.IsZero`: the instant is the zero time. -/
def IsZero (t : Int) : Bool := decide (t = 0)

/-- The largest `time.Duration`, `1<<63 - 1` nanoseconds (about 292 years). -/
def maxDuration : Int := 2 ^ 63 - 1

/-- The smallest `time.Duration`, `-1 << 63` nanoseconds. -/
def minDuration : Int := -2 ^ 63

/-- `t.Sub(u)`: the duration `t - u`; when that does not fit in a
`Duration`, the largest or the smallest duration. -/
def Sub (t u : Int) : Int :=
  if maxDuration < t - u then maxDuration
  else if t - u < minDuration then minDuration
  else t - u

/-- A call to the operating system or the clock. -/
inductive SysCall where
  | now
  | lstat (name : GoString)
  | openFile (name : GoString)
  | write (name : GoString) (n : Nat)
  deriving DecidableEq

/-- The environment of a `LogMan`. -/
structure World where
  /-- The readings the clock gives, in the order they are taken. -/
  clock : Nat → Int
  /-- How many readings were taken so far. -/
  reads : Nat
  /-- The regular files: contents by path. -/
  files : GoString → Option (List Byte)
  /-- Paths on which `Lstat` fails although a file may be there. -/
  statFails : GoString → Bool
  /-- Paths `OpenFile` refuses, with the reason it gives. -/
  openErr : GoString → Option GoString
  /-- Bytes the device still accepts. -/
  space : Nat
  /-- The open file handles, each named by the path it was opened on. -/
  handles : List GoString
  /-- The calls made so far, oldest first. -/
  calls : List SysCall

/-- `time.Now()`: the next reading of the clock. -/
def timeNow (w : World) : Int × World :=
  (w.clock w.reads, { w with reads := w.reads + 1, calls := w.calls ++ [SysCall.now] })

/-- What `os.Lstat(name)` finds: the size of the file, or `none` when the
call fails (no such file, or the path cannot be examined). -/
def statSize (w : World) (name : GoString) : Option Int :=
  if w.statFails name then none
  else
    match w.files name with
    | none => none
    | some data => some (data.length : Int)

/-- `os.Lstat(name)`, reduced to what the caller uses: the size or the
failure, and the world with the call recorded. -/
def Lstat (w : World) (name : GoString) : Option Int × World :=
  (statSize w name, { w with calls := w.calls ++ [SysCall.lstat name] })

/-- `os.OpenFile(name, O_WRONLY|O_APPEND|O_CREATE, 0666)`: the error text, or
a new handle on the file, which is created empty when absent. -/
def OpenFile (w : World) (name : GoString) : Except GoString GoString × World :=
  let w1 := { w with calls := w.calls ++ [SysCall.openFile name] }
  match w.openErr name with
  | some reason => (Except.error (lit "open " ++ name ++ lit ": " ++ reason), w1)
  | none =>
    (Except.ok name,
     { w1 with
       files := fun p => if p = name then some ((w.files name).getD []) else w.files p
       handles := w.handles ++ [name] })

/-- `f.Write(p)` on a handle opened for appending: as many bytes as the
device accepts are appended, and a short count comes with an error. -/
def fileWrite (w : World) (f : GoString) (p : List Byte) : Int × Option GoString × World :=
  let n := min p.length w.space
  let w1 : World :=
    { w with
      files := fun q => if q = f then some ((w.files f).getD [] ++ p.take n) else w.files q
      space := w.space - n
      calls := w.calls ++ [SysCall.write f n] }
  ((n : Int),
   if n < p.length then some (lit "write " ++ f ++ lit ": no space left on device") else none,
   w1)

/-! ## `LogMan`, `getLogFileName` and `Write` -/

/-- The struct `LogMan`. -/
structure LogMan where
  path : GoString
  /-- A `time.Duration`, in nanoseconds. -/
  duration : Int
  size : Int
  /-- A `time.Time`, in nanoseconds since the zero time. -/
  lastFileStart : Int
  layout : GoString

/-- What a call of `getLogFileName` leaves: the two results, the receiver
and the world. -/
structure NameResult where
  name : GoString
  err : Option GoString
  lm : LogMan
  w : World

/-- `(lm *LogMan) getLogFileName(logSize int64) (name string, err error)`.

`fmt t layout` stands for `t.Format(layout)`, and `time.Since(u)` is
`time.Now().Sub(u)`.  The result is `none` when the call panics, which
happens on the integer division by a zero `duration`. -/
def getLogFileName (fmt : Int → GoString → GoString) (lm : LogMan) (w : World)
    (logSize : Int) : Option NameResult :=
  -- first write
  if IsZero lm.lastFileStart then
    let t := timeNow w
    let lm1 := { lm with lastFileStart := t.1 }
    some ⟨fmt lm1.lastFileStart lm1.layout ++ lit ".log", none, lm1, t.2⟩
  else
    -- duration interval passed
    let t := timeNow w
    let since : Int := Sub t.1 lm.lastFileStart
    if lm.duration = 0 then none
    else
      let slots := toInt64 (Int.tdiv since lm.duration)
      if 1 ≤ slots then
        let newTime := lm.lastFileStart + toInt64 (slots * lm.duration)
        let lm1 := { lm with lastFileStart := newTime }
        some ⟨fmt newTime lm1.layout ++ lit ".log", none, lm1, t.2⟩
      else
        -- file size limit reached
        let lastFileName := lm.path ++ fmt lm.lastFileStart lm.layout ++ lit ".log"
        let st := Lstat t.2 lastFileName
        match st.1 with
        | none => some ⟨[], some (lit "logman: could not lstat " ++ lastFileName), lm, st.2⟩
        | some fileSize =>
          let size := toInt64 (fileSize + logSize)
          if lm.size ≤ size then
            let t2 := timeNow st.2
            let lm1 := { lm with lastFileStart := t2.1 }
            some ⟨fmt t2.1 lm1.layout ++ lit ".log", none, lm1, t2.2⟩
          else
            some ⟨fmt lm.lastFileStart lm.layout ++ lit ".log", none, lm, st.2⟩

/-- What a call of `Write` leaves: the two results, the receiver and the
world. -/
structure WriteResult where
  n : Int
  err : Option GoString
  lm : LogMan
  w : World

/-- `(lm *LogMan) Write(p []byte) (n int, err error)`; `none` when the call
panics. -/
def Write (fmt : Int → GoString → GoString) (lm : LogMan) (w : World)
    (p : List Byte) : Option WriteResult :=
  match getLogFileName fmt lm w (p.length : Int) with
  | none => none
  | some r =>
    match r.err with
    | some e =>
      some ⟨0, some (lit "logman: could not retrieve log file name: " ++ e), r.lm, r.w⟩
    | none =>
      let o := OpenFile r.w (r.lm.path ++ r.name)
      match o.1 with
      | Except.error e => some ⟨0, some (lit "logman: could not open log file: " ++ e), r.lm, o.2⟩
      | Except.ok f =>
        let wr := fileWrite o.2 f p
        some ⟨wr.1, wr.2.1, r.lm, wr.2.2⟩

/-! ## `Time.Format` with the layout `time.RFC3339Nano`

`New` stores `time.RFC3339Nano`, `"2006-01-02T15:04:05.999999999Z07:00"`, as
the layout.  Its rendering is modelled for a time whose location has the
offset `offset`, in seconds east of UTC, at that time: the civil date and
clock time of the location by fixed-width fields, the fractional second with
its trailing zeros removed (and left out when zero), and the zone as `Z` for
the offset zero and as `+hh:mm` or `-hh:mm` otherwise. -/

/-- `time.RFC3339Nano`. -/
def RFC3339Nano : GoString := lit "2006-01-02T15:04:05.999999999Z07:00"

/-- Gregorian leap year. -/
def isLeap (year : Int) : Bool :=
  decide (year % 4 = 0 ∧ (year % 100 ≠ 0 ∨ year % 400 = 0))

/-- A day within a 400-year cycle, split into the 100-year, 4-year and 1-year
cycles that precede it and the day of the year: the cycles are cut off in
turn, the last cycle of each kind being one day longer. -/
def cycleSplit (d0 : Nat) : Nat × Nat × Nat × Nat :=
  let c100 := d0 / 36524
  let n100 := c100 - c100 / 4
  let d1 := d0 - 36524 * n100
  let n4 := d1 / 1461
  let d2 := d1 - 1461 * n4
  let c1 := d2 / 365
  let n1 := c1 - c1 / 4
  let d3 := d2 - 365 * n1
  (n100, n4, n1, d3)

/-- The year and the day within the year (from 0) of the day `days` after
January 1 of year 1. -/
def yearDay (days : Int) : Int × Nat :=
  let n400 := days / 146097
  let p := cycleSplit (days % 146097).toNat
  (400 * n400 + ((100 * p.1 + 4 * p.2.1 + p.2.2.1 + 1 : Nat) : Int), p.2.2.2)

/-- Days before each month in a non-leap year, and the length of the year. -/
def daysBefore : List Nat := [0, 31, 59, 90, 120, 151, 181, 212, 243, 273, 304, 334, 365]

/-- The month (from 1) and the day of the month (from 1) of day `yday` of a
year. -/
def monthDay (leap : Bool) (yday : Nat) : Nat × Nat :=
  if leap ∧ yday = 59 then (2, 29)
  else
    let day := if leap ∧ 59 < yday then yday - 1 else yday
    let m := day / 31
    let stop := daysBefore.getD (m + 1) 0
    if stop ≤ day then (m + 2, day - stop + 1)
    else (m + 1, day - daysBefore.getD m 0 + 1)

/-- The byte of a decimal digit. -/
def digitByte (d : Nat) : Byte := Fin.ofNat (48 + d % 10)

/-- The decimal digits of `n`, most significant first, for at most `fuel`
digits. -/
def decDigits : Nat → Nat → List Byte
  | 0, _ => []
  | fuel + 1, n => if n < 10 then [digitByte n] else decDigits fuel (n / 10) ++ [digitByte n]

/-- `appendInt`: the decimal form of `x`, zero-padded to `width` digits, after
a minus sign when negative. -/
def appendInt (x : Int) (width : Nat) : GoString :=
  let u := x.natAbs
  let sign : GoString := if x < 0 then [45] else []
  if width = 2 ∧ u < 100 then sign ++ [digitByte (u / 10), digitByte u]
  else if width = 4 ∧ u < 10000 then
    sign ++ [digitByte (u / 1000), digitByte (u / 100), digitByte (u / 10), digitByte u]
  else
    let ds := decDigits 20 u
    sign ++ List.replicate (width - ds.length) 48 ++ ds

/-- The fractional second for `.999999999`: nine digits without the trailing
zeros, after a period; nothing when the fraction is zero. -/
def appendNano (nsec : Nat) : GoString :=
  let nine : List Byte :=
    [digitByte (nsec / 100000000), digitByte (nsec / 10000000), digitByte (nsec / 1000000),
     digitByte (nsec / 100000), digitByte (nsec / 10000), digitByte (nsec / 1000),
     digitByte (nsec / 100), digitByte (nsec / 10), digitByte nsec]
  let kept := (nine.reverse.dropWhile (fun c => c = 48)).reverse
  if kept = [] then [] else 46 :: kept

/-- The date and clock time of second `sec` after the zero time, as
`2006-01-02T15:04:05`. -/
def formatSeconds (sec : Int) : GoString :=
  let days := sec / 86400
  let rem := (sec % 86400).toNat
  let yd := yearDay days
  let md := monthDay (isLeap yd.1) yd.2
  appendInt yd.1 4 ++ [45] ++ appendInt md.1 2 ++ [45] ++ appendInt md.2 2 ++ [84] ++
    appendInt (rem / 3600 : Nat) 2 ++ [58] ++ appendInt (rem % 3600 / 60 : Nat) 2 ++ [58] ++
    appendInt (rem % 60 : Nat) 2

/-- The zone for `Z07:00`: `Z` for the offset zero, otherwise the sign and
the hours and minutes of the offset. -/
def formatZone (offset : Int) : GoString :=
  if offset = 0 then [90]
  else
    let zone := Int.tdiv offset 60
    let sign : GoString := if zone < 0 then [45] else [43]
    let z := zone.natAbs
    sign ++ appendInt ((z / 60 : Nat) : Int) 2 ++ [58] ++ appendInt ((z % 60 : Nat) : Int) 2

/-- `t.Format(time.RFC3339Nano)` for the instant `t` in a location whose
offset at `t` is `offset` seconds east of UTC. -/
def formatRFC3339Nano (offset : Int) (t : Int) : GoString :=
  formatSeconds (t / 1000000000 + offset) ++ appendNano (t % 1000000000).toNat ++
    formatZone offset

/-- The name of the file of the bucket that starts at `t`, under the layout
`New` stores, in a location with the offset `offset`. -/
def bucketFileName (offset : Int) (t : Int) : GoString :=
  formatRFC3339Nano offset t ++ lit ".log"

/-- Lexical order of strings, byte by byte, as Go's `<` on strings. -/
def strLess : GoString → GoString → Bool
  | [], [] => false
  | [], _ :: _ => true
  | _ :: _, [] => false
  | a :: l1, b :: l2 => if a < b then true else if b < a then false else strLess l1 l2

/-- Lexical order of strings, as Go's `<=` on strings. -/
def strLessEq (s1 s2 : GoString) : Bool := !strLess s2 s1

/-- Days from January 1 of year 1 to January 1 of year `y`. -/
def daysBeforeYear (y : Int) : Int :=
  365 * (y - 1) + (y - 1) / 4 - (y - 1) / 100 + (y - 1) / 400

/-- Days in year `y`. -/
def yearLength (y : Int) : Nat := if isLeap y then 366 else 365

/-! ## Runs of calls, and a sample session -/

/-- The path of the file of the bucket a `LogMan` is in. -/
def activeFile (fmt : Int → GoString → GoString) (lm : LogMan) : GoString :=
  lm.path ++ fmt lm.lastFileStart lm.layout ++ lit ".log"

/-- The world after `k` more readings of the clock and the calls `cs`. -/
def World.after (w : World) (k : Nat) (cs : List SysCall) : World :=
  { w with reads := w.reads + k, calls := w.calls ++ cs }

/-- A `LogMan` as `New` builds it for the directory `logs/`, an interval of
one second and a size of 100 bytes. -/
def sampleLogMan : LogMan :=
  { path := lit "logs/", duration := Second, size := 100, lastFileStart := 0,
    layout := RFC3339Nano }

/-- A world whose clock starts on 2024-01-01T00:00:00Z and advances by a
quarter of a second per reading, with an empty directory and room for 1000
bytes. -/
def sampleWorld : World :=
  { clock := fun i => 63839664000000000000 + 250000000 * (i : Int)
    reads := 0
    files := fun _ => none
    statFails := fun _ => false
    openErr := fun _ => none
    space := 1000
    handles := []
    calls := [] }

/-- `Format` for a `LogMan` that holds the layout of `New`, in a process
whose local zone is UTC. -/
def sampleFormat (t : Int) (_layout : GoString) : GoString := formatRFC3339Nano 0 t

/-- The number of whole intervals `getLogFileName` counts at its first clock
reading: `time.Since(lm.lastFileStart) / lm.duration`, in 64 bits. -/
def slotsAt (lm : LogMan) (w : World) : Int :=
  toInt64 (Int.tdiv (Sub (w.clock w.reads) lm.lastFileStart) lm.duration)

/-- The sample world with its clock set to 2024-01-01T00:00:00Z at every
reading. -/
def sampleWorldAt2024 : World :=
  { sampleWorld with clock := fun _ => 63839664000000000000 }

/-- `Format` for the layout of `New`, in a process whose local zone is two
hours east of UTC. -/
def sampleFormatEast (t : Int) (_layout : GoString) : GoString := formatRFC3339Nano 7200 t

/-- The sample `LogMan` in the bucket that starts at `t`. -/
def sampleActive (t : Int) : LogMan := { sampleLogMan with lastFileStart := t }

/-- The sample world in which every path holds a file of `n` zero bytes. -/
def sampleWorldWithFiles (n : Nat) : World :=
  { sampleWorld with files := fun _ => some (List.replicate n 0) }

/-- The largest size a file can have, `2 ^ 63 - 1` bytes. -/
def maxFileSize : Nat := 2 ^ 63 - 1

/-- The sample world in which `Lstat` fails on every path. -/
def sampleWorldNoStat : World :=
  { sampleWorld with statFails := fun _ => true }

/-- One event in the life of a `LogMan`: a call of `getLogFileName`, a call
of `Write`, or other processes changing the file system in between. -/
inductive Call where
  | name (logSize : Int)
  | write (p : List Byte)
  | others (files : GoString → Option (List Byte)) (statFails : GoString → Bool)
      (openErr : GoString → Option GoString) (space : Nat)

/-- The state after one event; `none` when the call panics. -/
def step (fmt : Int → GoString → GoString) (s : LogMan × World) (c : Call) :
    Option (LogMan × World) :=
  match c with
  | Call.name n => (getLogFileName fmt s.1 s.2 n).map (fun r => (r.lm, r.w))
  | Call.write p => (Write fmt s.1 s.2 p).map (fun r => (r.lm, r.w))
  | Call.others files statFails openErr space =>
    some (s.1, { s.2 with files := files, statFails := statFails, openErr := openErr,
                          space := space })

/-- The state after a sequence of events; `none` when one of them panics. -/
def run (fmt : Int → GoString → GoString) (s : LogMan × World) :
    List Call → Option (LogMan × World)
  | [] => some s
  | c :: cs =>
    match step fmt s c with
    | none => none
    | some s1 => run fmt s1 cs

/-- The clock never goes backwards. -/
def clockMonotone (w : World) : Prop := ∀ i j : Nat, i ≤ j → w.clock i ≤ w.clock j

/-- A non-zero bucket start was not set later than a clock reading already
taken. -/
def startSeen (lm : LogMan) (w : World) : Prop :=
  lm.lastFileStart ≠ 0 → ∃ j : Nat, j < w.reads ∧ lm.lastFileStart ≤ w.clock j

/-- The sample session after a first call of `getLogFileName`, in a world
where every path holds 60 bytes. -/
def sampleAfterFirst : LogMan × World :=
  (sampleActive 63839664000000000000, (sampleWorldWithFiles 60).after 1 [SysCall.now])

/-- The sample session after a second call, a quarter of a second later. -/
def sampleAfterSecond : LogMan × World :=
  (sampleActive 63839664000500000000,
   ((sampleWorldWithFiles 60).after 1 [SysCall.now]).after 2
     [SysCall.now, SysCall.lstat (lit "logs/2024-01-01T00:00:00Z.log"), SysCall.now])

/-! ## `New`

`New` returns a `*LogMan` and nothing else; on a configuration it rejects it
calls `os.Exit(1)`, which ends the process.  `time.ParseDuration` is a
parameter of the model: a function from the duration string to the parsed
duration in nanoseconds and the error. -/

/-- `strings.HasSuffix(s, suffix)`. -/
def HasSuffix (s suffix : GoString) : Bool :=
  decide (suffix.length ≤ s.length ∧ s.drop (s.length - suffix.length) = suffix)

/-- How a call of `New` ends: it returns the `LogMan`, or the process exits
with a status after the text written to standard output. -/
inductive NewOutcome where
  | ret (lm : LogMan)
  | exit (code : Int) (stdout : GoString)

/-- `New(path string, duration string, size string) *LogMan`.  The value of
`fmt.Errorf` is dropped by the source, so nothing is written before the
first exit. -/
def New (parseDuration : GoString → Int × Option GoString) (path duration size : GoString) :
    NewOutcome :=
  let d := parseDuration duration
  if d.2 ≠ none then NewOutcome.exit 1 []
  else if d.1 < Second then
    NewOutcome.exit 1
      (lit "[ERROR] Duration must be greater than, or equal to, 1 second" ++ [10])
  else
    let path1 := if !HasSuffix path (lit "/") then path ++ lit "/" else path
    let s := parseFileSize size
    match s.2 with
    | some e => NewOutcome.exit 1 (lit "[ERROR] Could not parse file size: " ++ e ++ [10])
    | none =>
      NewOutcome.ret
        { path := path1, duration := d.1, size := s.1, lastFileStart := 0,
          layout := RFC3339Nano }

/-- The values of `time.ParseDuration` at the duration strings of the
examples, `"1s"`, `"500ms"` and `"1h30m"`, and its error at `"soon"`; the
table has no other entries and answers any other string like `"soon"`. -/
def sampleParseDuration (s : GoString) : Int × Option GoString :=
  if s = lit "1s" then (1000000000, none)
  else if s = lit "500ms" then (500000000, none)
  else if s = lit "1h30m" then (5400000000000, none)
  else (0, some (lit "time: invalid duration " ++ [34] ++ s ++ [34]))

/-- The number of `/` bytes a path ends with. -/
def trailingSeps (p : GoString) : Nat :=
  (p.reverse.takeWhile (fun c => decide (c = 47))).length

/-- The set of open handles is the same in two worlds. -/
def sameHandles (w1 w2 : World) : Prop := w1.handles = w2.handles

/-- The paths of the `OpenFile` calls in a record of calls, oldest first. -/
def openedPaths : List SysCall → List GoString
  | [] => []
  | SysCall.openFile name :: cs => name :: openedPaths cs
  | _ :: cs => openedPaths cs

/-- The sample world in which every path holds an empty file that `OpenFile`
refuses with `permission denied`. -/
def sampleWorldDenied : World :=
  { sampleWorld with
    files := fun _ => some []
    openErr := fun _ => some (lit "permission denied") }

/-! ## Lemmas: the unit scan -/

theorem encodeRune_ascii (c : Byte) (h : c.val < 128) : encodeRune (c.val : Int) = [c] := by
  have h1 : ¬ ((c.val : Int) < 0 ∨ 0x10FFFF < (c.val : Int) ∨
      (0xD800 ≤ (c.val : Int) ∧ (c.val : Int) ≤ 0xDFFF)) := by omega
  have h2 : ((c.val : Int)).toNat = c.val := by simp
  unfold encodeRune
  rw [if_neg h1]
  simp only [h2]
  rw [if_pos h]
  congr 1
  apply Fin.ext
  simp [Fin.ofNat]

theorem isLetter_lt (c : Byte) (h : isLetter c = true) : c.val < 128 := by
  simp only [isLetter, Fin.le_def, Bool.or_eq_true, Bool.and_eq_true, decide_eq_true_eq] at h
  rcases h with h | h
  · have := h.2; simp at this; omega
  · have := h.2; simp at this; omega

theorem trailingLetters_snoc (xs : GoString) (c : Byte) :
    trailingLetters (xs ++ [c]) = if isLetter c then trailingLetters xs ++ [c] else [] := by
  simp only [trailingLetters, List.reverse_append, List.reverse_cons, List.reverse_nil,
    List.nil_append, List.singleton_append, List.takeWhile_cons]
  split <;> simp

theorem scanUnit_eq (size : GoString) :
    ∀ (k : Nat) (acc : GoString), k ≤ size.length →
      scanUnit size k acc = trailingLetters (size.take k) ++ acc := by
  intro k
  induction k with
  | zero => intro acc _; simp [scanUnit, trailingLetters]
  | succ k ih =>
    intro acc hk
    have hlt : k < size.length := by omega
    have hget : size[k]? = some size[k] := List.getElem?_eq_getElem hlt
    have htake : size.take (k + 1) = size.take k ++ [size[k]] := by
      rw [List.take_succ, hget]; rfl
    rw [scanUnit, hget, htake, trailingLetters_snoc]
    simp only
    by_cases hl : isLetter size[k] = true
    · rw [if_pos hl, if_pos hl, ih _ (by omega), encodeRune_ascii _ (isLetter_lt _ hl)]
      simp
    · rw [if_neg hl, if_neg hl]; simp

/-- The loop of `parseFileSize` isolates the maximal trailing run of letters. -/
theorem scanUnit_trailingLetters (size : GoString) :
    scanUnit size size.length [] = trailingLetters size := by
  rw [scanUnit_eq size size.length [] (le_refl _)]
  simp

theorem trailingLetters_length_le (s : GoString) : (trailingLetters s).length ≤ s.length := by
  unfold trailingLetters
  rw [List.length_reverse]
  calc (s.reverse.takeWhile isLetter).length ≤ s.reverse.length :=
        (List.takeWhile_sublist _).length_le
    _ = s.length := List.length_reverse s

/-! ## Lemmas: `strconv.ParseInt` -/

theorem digitsAcc_cons (n : Nat) (c : Byte) (cs : List Byte) :
    digitsAcc n (c :: cs) = digitsAcc (10 * n + (c.val - 48)) cs := rfl

theorem le_digitsAcc (ds : List Byte) : ∀ n : Nat, n ≤ digitsAcc n ds := by
  induction ds with
  | nil => intro n; simp [digitsAcc]
  | cons c cs ih =>
    intro n
    rw [digitsAcc_cons]
    have := ih (10 * n + (c.val - 48))
    omega

theorem parseUintLoop_nondigit (c : Byte) (cs : List Byte) (n : Nat)
    (h : ¬(48 ≤ c.val ∧ c.val ≤ 57)) :
    parseUintLoop (c :: cs) n = (0, some NumError.ErrSyntax) := by
  rw [parseUintLoop]
  simp only [if_neg h]
  split <;> (try split) <;> rfl

theorem parseUintLoop_digit (c : Byte) (cs : List Byte) (n : Nat)
    (h : 48 ≤ c.val ∧ c.val ≤ 57) :
    parseUintLoop (c :: cs) n =
      if maxUint64 / 10 + 1 ≤ n then (maxUint64, some NumError.ErrRange)
      else if (n * 10 + (c.val - 48)) % 2 ^ 64 < n * 10 ∨
          maxUint64 < (n * 10 + (c.val - 48)) % 2 ^ 64 then
        (maxUint64, some NumError.ErrRange)
      else parseUintLoop cs ((n * 10 + (c.val - 48)) % 2 ^ 64) := by
  have h10 : ¬ (10 ≤ c.val - 48) := by omega
  rw [parseUintLoop]
  simp only [if_pos h, if_neg h10]

theorem parseUintLoop_ok (ds : List Byte) :
    ∀ n : Nat, (∀ c ∈ ds, isDigit c = true) → digitsAcc n ds ≤ maxUint64 →
      parseUintLoop ds n = (digitsAcc n ds, none) := by
  induction ds with
  | nil => intro n _ _; rfl
  | cons c cs ih =>
    intro n hd hle
    have hc : 48 ≤ c.val ∧ c.val ≤ 57 := by
      have := hd c (List.mem_cons_self _ _)
      simpa [isDigit] using this
    have hstep := le_digitsAcc cs (10 * n + (c.val - 48))
    rw [digitsAcc_cons] at hle
    simp only [maxUint64] at hle
    have hrec := ih (10 * n + (c.val - 48)) (fun x hx => hd x (List.mem_cons_of_mem _ hx))
      (by simp only [maxUint64]; exact hle)
    have hmod : (n * 10 + (c.val - 48)) % 2 ^ 64 = 10 * n + (c.val - 48) := by omega
    rw [parseUintLoop_digit c cs n hc, hmod]
    simp only [maxUint64]
    rw [if_neg (by omega), if_neg (by omega), digitsAcc_cons]
    exact hrec

theorem parseUintLoop_none (ds : List Byte) :
    ∀ n : Nat, (parseUintLoop ds n).2 = none →
      (∀ c ∈ ds, isDigit c = true) ∧ digitsAcc n ds ≤ maxUint64 ∨ maxUint64 < n := by
  induction ds with
  | nil =>
    intro n _
    by_cases hn : maxUint64 < n
    · exact Or.inr hn
    · exact Or.inl ⟨by simp, by simp only [digitsAcc, List.foldl_nil]; omega⟩
  | cons c cs ih =>
    intro n h
    by_cases hc : 48 ≤ c.val ∧ c.val ≤ 57
    · rw [parseUintLoop_digit c cs n hc] at h
      split at h
      · simp at h
      · split at h
        · simp at h
        · rename_i h1 h2
          simp only [maxUint64] at h1 h2
          have hmod : (n * 10 + (c.val - 48)) % 2 ^ 64 = 10 * n + (c.val - 48) := by omega
          rw [hmod] at h
          rcases ih _ h with ⟨hd, hle⟩ | hbig
          · left
            refine ⟨?_, by rw [digitsAcc_cons]; exact hle⟩
            intro x hx
            rcases List.mem_cons.mp hx with rfl | hx
            · simp [isDigit, hc.1, hc.2]
            · exact hd x hx
          · simp only [maxUint64] at hbig; omega
    · rw [parseUintLoop_nondigit c cs n hc] at h
      simp at h

theorem parseUintLoop_range (ds : List Byte) :
    ∀ n : Nat, (parseUintLoop ds n).2 = some NumError.ErrRange →
      (parseUintLoop ds n).1 = maxUint64 := by
  induction ds with
  | nil => intro n h; simp [parseUintLoop] at h
  | cons c cs ih =>
    intro n h
    by_cases hc : 48 ≤ c.val ∧ c.val ≤ 57
    · rw [parseUintLoop_digit c cs n hc] at h ⊢
      split
      · rfl
      · rename_i h1
        rw [if_neg h1] at h
        split
        · rfl
        · rename_i h2
          rw [if_neg h2] at h
          exact ih _ h
    · rw [parseUintLoop_nondigit c cs n hc] at h
      simp at h

theorem ParseUint_digits (body : GoString) (hne : body ≠ [])
    (hall : ∀ c ∈ body, isDigit c = true) (hle : digitsVal body ≤ maxUint64) :
    ParseUint body = (digitsVal body, none) := by
  rw [ParseUint, if_neg hne]
  exact parseUintLoop_ok body 0 hall hle

theorem ParseUint_none (body : GoString) (h : (ParseUint body).2 = none) :
    body ≠ [] ∧ (∀ c ∈ body, isDigit c = true) ∧ digitsVal body ≤ maxUint64 := by
  by_cases hne : body = []
  · rw [ParseUint, if_pos hne] at h; simp at h
  · rw [ParseUint, if_neg hne] at h
    rcases parseUintLoop_none body 0 h with ⟨hd, hle⟩ | hbig
    · exact ⟨hne, hd, hle⟩
    · simp [maxUint64] at hbig

theorem ParseUint_range (body : GoString) (h : (ParseUint body).2 = some NumError.ErrRange) :
    (ParseUint body).1 = maxUint64 := by
  by_cases hne : body = []
  · rw [ParseUint, if_pos hne] at h; simp at h
  · rw [ParseUint, if_neg hne] at h ⊢
    exact parseUintLoop_range body 0 h

/-- The sign-stripped body that `ParseInt` hands to `ParseUint`. -/
theorem ParseInt_cons (c : Byte) (t : GoString) :
    ParseInt (c :: t) =
      (let r := ParseUint (if c = 43 then t else if c = 45 then t else c :: t)
       if r.2 = some NumError.ErrSyntax then (0, some NumError.ErrSyntax)
       else if (!decide (c = 45)) = true ∧ 2 ^ 63 ≤ r.1 then
         (((2 ^ 63 : Nat) : Int) - 1, some NumError.ErrRange)
       else if decide (c = 45) = true ∧ 2 ^ 63 < r.1 then
         (-((2 ^ 63 : Nat) : Int), some NumError.ErrRange)
       else (if decide (c = 45) = true then toInt64 (-toInt64 r.1) else toInt64 r.1, none)) := rfl

theorem decimalValue_cons (c : Byte) (t : GoString) :
    decimalValue (c :: t) =
      (let body := if c = 43 then t else if c = 45 then t else c :: t
       if body ≠ [] ∧ (∀ x ∈ body, isDigit x = true) then
         some (if c = 45 then -(digitsVal body : Int) else (digitsVal body : Int))
       else none) := by
  by_cases h43 : c = 43
  · simp [decimalValue, h43]
  · by_cases h45 : c = 45
    · simp [decimalValue, h45]
    · simp [decimalValue, h43, h45]

/-- On a base-10 integer in range `ParseInt` returns its value. -/
theorem ParseInt_ok (s : GoString) (v : Int) (hv : decimalValue s = some v)
    (hlo : -(2 : Int) ^ 63 ≤ v) (hhi : v < 2 ^ 63) : ParseInt s = (v, none) := by
  cases s with
  | nil => simp [decimalValue] at hv
  | cons c t =>
    rw [decimalValue_cons] at hv
    rw [ParseInt_cons]
    generalize (if c = 43 then t else if c = 45 then t else c :: t) = body at hv ⊢
    simp only at hv ⊢
    split at hv
    · rename_i hb
      obtain ⟨hne, hall⟩ := hb
      simp only [Option.some.injEq] at hv
      have hmax : digitsVal body ≤ maxUint64 := by
        simp only [maxUint64]
        split at hv <;> omega
      rw [ParseUint_digits body hne hall hmax]
      simp only
      by_cases h45 : c = 45
      · simp only [h45, if_true, decide_True, Bool.not_true] at hv ⊢
        rw [if_neg (by simp), if_neg (by simp), if_neg (by omega)]
        simp only [toInt64, Prod.mk.injEq, and_true]
        omega
      · simp only [h45, if_false, decide_False, Bool.not_false] at hv ⊢
        rw [if_neg (by simp), if_neg (by omega), if_neg (by simp)]
        simp only [toInt64, Prod.mk.injEq, and_true, Bool.false_eq_true, if_false]
        omega
    · simp at hv

/-- On anything else `ParseInt` fails, returning 0 or a saturated value. -/
theorem ParseInt_err (s : GoString) (h : isBase10Int64 s = false) :
    (ParseInt s).2 ≠ none ∧
      ((ParseInt s).1 = 0 ∨ (ParseInt s).1 = 2 ^ 63 - 1 ∨ (ParseInt s).1 = -2 ^ 63) := by
  cases s with
  | nil => simp [ParseInt]
  | cons c t =>
    simp only [isBase10Int64] at h
    rw [decimalValue_cons] at h
    rw [ParseInt_cons]
    generalize (if c = 43 then t else if c = 45 then t else c :: t) = body at h ⊢
    simp only at h ⊢
    split
    · simp
    · rename_i hsyn
      split
      · simp
      · rename_i h1
        split
        · simp
        · rename_i h2
          exfalso
          have hnone : (ParseUint body).2 = none := by
            cases hr : (ParseUint body).2 with
            | none => rfl
            | some e =>
              cases e with
              | ErrSyntax => exact absurd hr hsyn
              | ErrRange =>
                have := ParseUint_range body hr
                simp only [maxUint64] at this
                by_cases h45 : c = 45
                · simp [h45, this] at h2
                · simp [h45, this] at h1
          obtain ⟨hne, hall, hle⟩ := ParseUint_none body hnone
          rw [ParseUint_digits body hne hall hle] at h1 h2
          rw [if_pos ⟨hne, hall⟩] at h
          simp only [decide_eq_false_iff_not] at h
          by_cases h45 : c = 45
          · simp only [h45, if_true, decide_True, true_and, not_lt] at h h2
            omega
          · simp only [h45, if_false, decide_False, Bool.not_false, true_and, not_le] at h h1
            omega

/-! ## Lemmas: `parseFileSize` -/

theorem parseFileSize_eq (s : GoString) :
    parseFileSize s =
      match unitMult (trailingLetters s) with
      | none => (0, some (unknownUnitMsg (trailingLetters s)))
      | some mult =>
        if (ParseInt (numericPart s)).2 ≠ none then
          (0, some (couldNotParseMsg (encodeRune (ParseInt (numericPart s)).1)))
        else (toInt64 ((mult : Int) * (ParseInt (numericPart s)).1), none) := by
  have h1 : lit "logman: unknown file size units " ++ lit "'" =
      lit "logman: unknown file size units '" := by decide
  have h2 : lit "logman: could not parse file size " ++ lit "'" =
      lit "logman: could not parse file size '" := by decide
  simp only [parseFileSize, scanUnit_trailingLetters, h1, h2, unknownUnitMsg, couldNotParseMsg,
    numericPart]

theorem unitMult_none (u : GoString) (h : u ∉ units) : unitMult u = none := by
  simp only [units, List.mem_cons, List.mem_singleton, not_or, List.not_mem_nil, or_false] at h
  simp [unitMult, h.1, h.2.1, h.2.2.1, h.2.2.2]

theorem unitMult_table (u : GoString) (k : Nat) (h : (u, k) ∈ unitTable) :
    unitMult u = some (1024 ^ k) := by
  simp only [unitTable, List.mem_cons, List.mem_singleton, Prod.mk.injEq, List.not_mem_nil,
    or_false] at h
  rcases h with ⟨rfl, rfl⟩ | ⟨rfl, rfl⟩ | ⟨rfl, rfl⟩ | ⟨rfl, rfl⟩ <;> decide

theorem unitMult_units (u : GoString) (h : u ∈ units) : ∃ m, unitMult u = some m := by
  have : (unitMult u).isSome = true := by
    simp only [units, List.mem_cons, List.mem_singleton, List.not_mem_nil, or_false] at h
    rcases h with rfl | rfl | rfl | rfl <;> decide
  exact Option.isSome_iff_exists.mp this

theorem unitTable_letters (u : GoString) (k : Nat) (h : (u, k) ∈ unitTable) :
    ∀ c ∈ u, isLetter c = true := by
  have : u.all isLetter = true := by
    simp only [unitTable, List.mem_cons, List.mem_singleton, Prod.mk.injEq, List.not_mem_nil,
      or_false] at h
    rcases h with ⟨rfl, rfl⟩ | ⟨rfl, rfl⟩ | ⟨rfl, rfl⟩ | ⟨rfl, rfl⟩ <;> decide
  simpa using this

theorem takeWhile_append_all {α : Type} (p : α → Bool) (l1 l2 : List α)
    (h : ∀ x ∈ l1, p x = true) : (l1 ++ l2).takeWhile p = l1 ++ l2.takeWhile p := by
  induction l1 with
  | nil => rfl
  | cons a l ih =>
    have ha := h a (List.mem_cons_self _ _)
    simp only [List.cons_append, List.takeWhile_cons, ha, if_true]
    rw [ih (fun x hx => h x (List.mem_cons_of_mem _ hx))]

theorem isDigit_not_letter (c : Byte) (h : isDigit c = true) : isLetter c = false := by
  simp only [isDigit, Bool.and_eq_true, decide_eq_true_eq] at h
  simp only [isLetter, Fin.le_def]
  simp
  omega

/-- After a non-empty run of digits the trailing letters are exactly the
letters appended. -/
theorem trailingLetters_digits_append (ds u : GoString) (hne : ds ≠ [])
    (hd : ∀ c ∈ ds, isDigit c = true) (hu : ∀ c ∈ u, isLetter c = true) :
    trailingLetters (ds ++ u) = u := by
  unfold trailingLetters
  rw [List.reverse_append, takeWhile_append_all _ _ _ (by simpa using hu)]
  have hlast : ds.reverse.takeWhile isLetter = [] := by
    cases hr : ds.reverse with
    | nil => exact absurd (List.reverse_eq_nil_iff.mp hr) hne
    | cons x xs =>
      have hx : x ∈ ds := by
        have : x ∈ ds.reverse := by rw [hr]; exact List.mem_cons_self _ _
        simpa using this
      simp [List.takeWhile_cons, isDigit_not_letter x (hd x hx)]
  rw [hlast]
  simp

theorem decimalValue_digits (ds : GoString) (hne : ds ≠ [])
    (hd : ∀ c ∈ ds, isDigit c = true) : decimalValue ds = some (digitsVal ds : Int) := by
  cases ds with
  | nil => exact absurd rfl hne
  | cons c t =>
    have hc := hd c (List.mem_cons_self _ _)
    simp only [isDigit, Bool.and_eq_true, decide_eq_true_eq] at hc
    have h43 : c ≠ 43 := by
      intro h
      have : c.val = 43 := by rw [h]; rfl
      omega
    have h45 : c ≠ 45 := by
      intro h
      have : c.val = 45 := by rw [h]; rfl
      omega
    rw [decimalValue_cons]
    simp only [h43, h45, if_false]
    rw [if_pos ⟨by simp, hd⟩]

theorem isMalformedNumber_couldNotParse (r : GoString) :
    isMalformedNumber (some (couldNotParseMsg r)) = true := by
  have h : lit "logman: could not parse file size '" =
      lit "logman: could not parse file size " ++ lit "'" := by decide
  simp only [isMalformedNumber, couldNotParseMsg, h, List.append_assoc]
  rw [List.isPrefixOf_iff_prefix]
  exact List.prefix_append _ _

theorem isUnknownUnit_couldNotParse (r : GoString) :
    isUnknownUnit (some (couldNotParseMsg r)) = false := rfl

/-! ## Claims about `parseFileSize` -/

/-- C1: a non-empty run of decimal digits with value `n` followed by a unit
of exponent `k`, with `n * 1024 ^ k` inside the signed 64-bit range, parses to
`n * 1024 ^ k` with no error; `"10MiB"`, `"1GiB"` and `"7B"` parse to
`10 * 1024 ^ 2`, `1024 ^ 3` and `7`. -/
theorem parseFileSize_digits_unit :
    (∀ (ds u : GoString) (k : Nat), ds ≠ [] → (∀ c ∈ ds, isDigit c = true) →
        (u, k) ∈ unitTable → digitsVal ds * 1024 ^ k < 2 ^ 63 →
        parseFileSize (ds ++ u) = (((digitsVal ds * 1024 ^ k : Nat) : Int), none)) ∧
    parseFileSize (lit "10MiB") = (10 * 1024 ^ 2, none) ∧
    parseFileSize (lit "1GiB") = (1024 ^ 3, none) ∧
    parseFileSize (lit "7B") = (7, none) := by
  refine ⟨?_, by decide, by decide, by decide⟩
  intro ds u k hne hd hu hfit
  have htl : trailingLetters (ds ++ u) = u :=
    trailingLetters_digits_append ds u hne hd (unitTable_letters u k hu)
  have hnum : numericPart (ds ++ u) = ds := by
    simp [numericPart, htl]
  have h1024 : 0 < 1024 ^ k := by positivity
  have hval : digitsVal ds < 2 ^ 63 := by
    calc digitsVal ds = digitsVal ds * 1 := (Nat.mul_one _).symm
      _ ≤ digitsVal ds * 1024 ^ k := Nat.mul_le_mul_left _ h1024
      _ < 2 ^ 63 := hfit
  have hparse : ParseInt ds = ((digitsVal ds : Int), none) :=
    ParseInt_ok ds _ (decimalValue_digits ds hne hd) (by omega) (by omega)
  rw [parseFileSize_eq, htl, unitMult_table u k hu, hnum, hparse]
  simp only [ne_eq, not_true_eq_false, if_false]
  have hcast : ((1024 ^ k : Nat) : Int) * (digitsVal ds : Int) =
      ((digitsVal ds * 1024 ^ k : Nat) : Int) := by
    push_cast; ring
  rw [hcast]
  simp only [toInt64, Prod.mk.injEq, and_true]
  generalize digitsVal ds * 1024 ^ k = m at hfit
  omega

theorem parseFileSize_digits_unit_witness :
    parseFileSize (lit "512" ++ KiB) = (((digitsVal (lit "512") * 1024 ^ 1 : Nat) : Int), none) :=
  parseFileSize_digits_unit.1 (lit "512") KiB 1 (by decide) (by decide) (by decide) (by decide)

/-- C2: when the maximal trailing run of ASCII letters is not one of `B`,
`KiB`, `MiB`, `GiB`, the result is size 0 with the unknown-unit error whose
message quotes that whole run; `"5TB"` fails naming `'TB'`. -/
theorem parseFileSize_unknown_unit :
    (∀ s : GoString, trailingLetters s ∉ units →
        parseFileSize s = (0, some (unknownUnitMsg (trailingLetters s)))) ∧
    trailingLetters (lit "5TB") = lit "TB" ∧
    parseFileSize (lit "5TB") = (0, some (lit "logman: unknown file size units 'TB'")) := by
  refine ⟨?_, by decide, by decide⟩
  intro s hs
  rw [parseFileSize_eq, unitMult_none _ hs]

theorem parseFileSize_unknown_unit_witness :
    parseFileSize (lit "12 kb") = (0, some (unknownUnitMsg (trailingLetters (lit "12 kb")))) :=
  parseFileSize_unknown_unit.1 (lit "12 kb") (by decide)

/-- C3, as stated, fails: `"abcMiB"` is rejected with the unknown-unit error,
not with the malformed-number error. -/
theorem parseFileSize_abcMiB_not_malformed :
    ¬ (isMalformedNumber (parseFileSize (lit "abcMiB")).2 = true ∧
        isUnknownUnit (parseFileSize (lit "abcMiB")).2 = false) := by
  decide

/-- C3, amended: `"abcMiB"` fails with the unknown-unit error naming
`'abcMiB'`, the letters `abc` being part of the trailing run; whenever the
trailing run of letters is a recognised unit and what precedes it is not a
base-10 integer in range, the failure is the malformed-number error and not
the unknown-unit error. -/
theorem parseFileSize_failure_kind :
    parseFileSize (lit "abcMiB") =
        (0, some (lit "logman: unknown file size units 'abcMiB'")) ∧
    (∀ s : GoString, trailingLetters s ∈ units → isBase10Int64 (numericPart s) = false →
        isMalformedNumber (parseFileSize s).2 = true ∧
        isUnknownUnit (parseFileSize s).2 = false) := by
  refine ⟨by decide, ?_⟩
  intro s hu hbad
  obtain ⟨m, hm⟩ := unitMult_units _ hu
  rw [parseFileSize_eq, hm]
  simp only
  rw [if_pos (ParseInt_err _ hbad).1]
  exact ⟨isMalformedNumber_couldNotParse _, isUnknownUnit_couldNotParse _⟩

theorem parseFileSize_failure_kind_witness :
    isMalformedNumber (parseFileSize (lit "abc.MiB")).2 = true ∧
      isUnknownUnit (parseFileSize (lit "abc.MiB")).2 = false :=
  parseFileSize_failure_kind.2 (lit "abc.MiB") (by decide) (by decide)

/-- C4: when the trailing run of letters is a recognised unit and what
precedes it is not a base-10 integer in the signed 64-bit range, the result
is size 0 with the malformed-number error (whose quoted text is the rune of
the value `ParseInt` returned: NUL, or U+FFFD for an out-of-range value);
so for the empty prefix of `"MiB"`, the fraction of `"1.5MiB"`, the blank of
`"1 0MiB"` and the out-of-range `"9223372036854775808B"`. -/
theorem parseFileSize_malformed_number :
    (∀ s : GoString, trailingLetters s ∈ units → isBase10Int64 (numericPart s) = false →
        (parseFileSize s).1 = 0 ∧
        ∃ r : GoString, (r = [0] ∨ r = [0xEF, 0xBF, 0xBD]) ∧
          (parseFileSize s).2 = some (couldNotParseMsg r)) ∧
    parseFileSize (lit "MiB") = (0, some (couldNotParseMsg [0])) ∧
    parseFileSize (lit "1.5MiB") = (0, some (couldNotParseMsg [0])) ∧
    parseFileSize (lit "1 0MiB") = (0, some (couldNotParseMsg [0])) ∧
    parseFileSize (lit "9223372036854775808B") = (0, some (couldNotParseMsg [0xEF, 0xBF, 0xBD])) ∧
    parseFileSize (lit "-9223372036854775809B") =
      (0, some (couldNotParseMsg [0xEF, 0xBF, 0xBD])) := by
  refine ⟨?_, by decide, by decide, by decide, by decide, by decide⟩
  intro s hu hbad
  obtain ⟨m, hm⟩ := unitMult_units _ hu
  obtain ⟨herr, hval⟩ := ParseInt_err _ hbad
  rw [parseFileSize_eq, hm]
  simp only
  rw [if_pos herr]
  refine ⟨rfl, encodeRune (ParseInt (numericPart s)).1, ?_, rfl⟩
  rcases hval with h | h | h <;> rw [h]
  · left; decide
  · right; decide
  · right; decide

theorem parseFileSize_malformed_number_witness :
    (parseFileSize (lit "0x10KiB")).1 = 0 ∧
      ∃ r : GoString, (r = [0] ∨ r = [0xEF, 0xBF, 0xBD]) ∧
        (parseFileSize (lit "0x10KiB")).2 = some (couldNotParseMsg r) :=
  parseFileSize_malformed_number.1 (lit "0x10KiB") (by decide) (by decide)

/-! ## Lemmas: the branches of `getLogFileName` -/

theorem toInt64_of_fits (x : Int) (hlo : -2 ^ 63 ≤ x) (hhi : x < 2 ^ 63) : toInt64 x = x := by
  simp only [toInt64]
  omega

theorem Sub_bounds (t u : Int) : -2 ^ 63 ≤ Sub t u ∧ Sub t u < 2 ^ 63 := by
  simp only [Sub, maxDuration, minDuration]
  split
  · omega
  · split <;> omega

theorem Sub_of_fits (t u : Int) (hlo : -2 ^ 63 ≤ t - u) (hhi : t - u ≤ maxDuration) :
    Sub t u = t - u := by
  simp only [maxDuration] at hhi
  simp only [Sub, maxDuration, minDuration]
  rw [if_neg (by omega), if_neg (by omega)]

theorem Sub_lt (t u d : Int) (hd : 0 < d) (he : t - u < d) : Sub t u < d := by
  simp only [Sub, maxDuration, minDuration]
  split
  · omega
  · split <;> omega

theorem Sub_nonneg (t u : Int) (he : 0 ≤ t - u) : 0 ≤ Sub t u ∧ Sub t u ≤ t - u := by
  simp only [Sub, maxDuration, minDuration]
  split
  · omega
  · split <;> omega

/-- The 64-bit quotient of a non-negative duration by a positive one. -/
theorem slots_pos (x d : Int) (hx : 0 ≤ x) (hmax : x < 2 ^ 63) (hd : 0 < d) :
    toInt64 (Int.tdiv x d) = x / d ∧ 0 ≤ x / d ∧ x / d * d ≤ x ∧
      toInt64 (x / d * d) = x / d * d := by
  have htd : Int.tdiv x d = x / d := Int.tdiv_eq_ediv hx (by omega)
  have h0 : 0 ≤ x / d := Int.ediv_nonneg hx (by omega)
  have hle : x / d ≤ x := Int.ediv_le_self d hx
  have hmul : x / d * d ≤ x := Int.ediv_mul_le x (by omega)
  have hmul0 : 0 ≤ x / d * d := Int.mul_nonneg h0 (by omega)
  rw [htd]
  exact ⟨toInt64_of_fits _ (by omega) (by omega), h0, hmul,
    toInt64_of_fits _ (by omega) (by omega)⟩

/-- The 64-bit quotient is below one for a negative duration over a positive
one, and for a non-negative duration over a negative one. -/
theorem slots_nonpos (x d : Int) (hlo : -2 ^ 63 ≤ x) (hmax : x < 2 ^ 63)
    (h : (x < 0 ∧ 0 < d) ∨ (0 ≤ x ∧ d < 0)) : toInt64 (Int.tdiv x d) ≤ 0 := by
  rcases h with ⟨hx, hd⟩ | ⟨hx, hd⟩
  · have h1 : Int.tdiv x d = -Int.tdiv (-x) d := by rw [Int.neg_tdiv, neg_neg]
    have h2 : Int.tdiv (-x) d = -x / d := Int.tdiv_eq_ediv (by omega) (by omega)
    have h3 : 0 ≤ -x / d := Int.ediv_nonneg (by omega) (by omega)
    have h4 : -x / d ≤ -x := Int.ediv_le_self d (by omega)
    rw [h1, h2, toInt64_of_fits _ (by omega) (by omega)]
    omega
  · have h1 : Int.tdiv x d = -Int.tdiv x (-d) := by rw [Int.tdiv_neg, neg_neg]
    have h2 : Int.tdiv x (-d) = x / -d := Int.tdiv_eq_ediv hx (by omega)
    have h3 : 0 ≤ x / -d := Int.ediv_nonneg hx (by omega)
    have h4 : x / -d ≤ x := Int.ediv_le_self (-d) hx
    rw [h1, h2, toInt64_of_fits _ (by omega) (by omega)]
    omega

/-- Less than one positive interval elapsed: the slot count is below one. -/
theorem slotsAt_lt_one (lm : LogMan) (w : World) (hd : 0 < lm.duration)
    (hel : w.clock w.reads - lm.lastFileStart < lm.duration) : ¬ (1 ≤ slotsAt lm w) := by
  obtain ⟨hlo, hhi⟩ := Sub_bounds (w.clock w.reads) lm.lastFileStart
  have hlt := Sub_lt (w.clock w.reads) lm.lastFileStart lm.duration hd hel
  simp only [slotsAt]
  by_cases hx : 0 ≤ Sub (w.clock w.reads) lm.lastFileStart
  · rw [Int.tdiv_eq_zero_of_lt hx hlt]
    decide
  · have := slots_nonpos _ lm.duration hlo hhi (Or.inl ⟨by omega, hd⟩)
    omega

/-- At least one positive interval elapsed, for a positive interval that is a
`Duration`: the slot count is the floor quotient of the duration `Sub` gives,
and is one or more. -/
theorem slotsAt_ge_one (lm : LogMan) (w : World) (hd : 0 < lm.duration)
    (hdmax : lm.duration ≤ maxDuration)
    (hel : lm.duration ≤ w.clock w.reads - lm.lastFileStart) :
    slotsAt lm w = Sub (w.clock w.reads) lm.lastFileStart / lm.duration ∧
    1 ≤ Sub (w.clock w.reads) lm.lastFileStart / lm.duration ∧
    toInt64 (slotsAt lm w * lm.duration) =
      Sub (w.clock w.reads) lm.lastFileStart / lm.duration * lm.duration ∧
    lm.duration ≤ Sub (w.clock w.reads) lm.lastFileStart ∧
    Sub (w.clock w.reads) lm.lastFileStart ≤ w.clock w.reads - lm.lastFileStart := by
  obtain ⟨hlo, hhi⟩ := Sub_bounds (w.clock w.reads) lm.lastFileStart
  have hge : lm.duration ≤ Sub (w.clock w.reads) lm.lastFileStart := by
    simp only [maxDuration] at hdmax
    simp only [Sub, maxDuration, minDuration]
    split
    · omega
    · split <;> omega
  obtain ⟨h0, hle⟩ := Sub_nonneg (w.clock w.reads) lm.lastFileStart (by omega)
  obtain ⟨h1, h2, h3, h4⟩ := slots_pos _ lm.duration h0 hhi hd
  have hk : 1 ≤ Sub (w.clock w.reads) lm.lastFileStart / lm.duration := by
    rw [Int.le_ediv_iff_mul_le hd]; omega
  simp only [slotsAt]
  rw [h1]
  exact ⟨rfl, hk, h4, hge, hle⟩

/-- A slot count of one or more, when the clock is not behind the bucket
start: the interval is positive and the new start lies between the old one
and the clock reading. -/
theorem slotsAt_ge_one_inv (lm : LogMan) (w : World)
    (he : 0 ≤ w.clock w.reads - lm.lastFileStart) (hs : 1 ≤ slotsAt lm w) :
    0 < lm.duration ∧ 0 ≤ toInt64 (slotsAt lm w * lm.duration) ∧
      toInt64 (slotsAt lm w * lm.duration) ≤ w.clock w.reads - lm.lastFileStart := by
  obtain ⟨hlo, hhi⟩ := Sub_bounds (w.clock w.reads) lm.lastFileStart
  obtain ⟨h0, hle⟩ := Sub_nonneg (w.clock w.reads) lm.lastFileStart he
  have hpos : 0 < lm.duration := by
    by_contra hneg
    by_cases hz : lm.duration = 0
    · simp only [slotsAt, hz, Int.tdiv_zero] at hs
      exact absurd hs (by decide)
    · have := slots_nonpos _ lm.duration hlo hhi (Or.inr ⟨h0, by omega⟩)
      simp only [slotsAt] at hs
      omega
  obtain ⟨h1, h2, h3, h4⟩ := slots_pos _ lm.duration h0 hhi hpos
  have hmul0 : 0 ≤ Sub (w.clock w.reads) lm.lastFileStart / lm.duration * lm.duration :=
    Int.mul_nonneg h2 (by omega)
  simp only [slotsAt]
  rw [h1, h4]
  exact ⟨hpos, hmul0, by omega⟩

theorem getLogFileName_zero (fmt : Int → GoString → GoString) (lm : LogMan) (w : World)
    (n : Int) (h : lm.lastFileStart = 0) :
    getLogFileName fmt lm w n =
      some ⟨fmt (w.clock w.reads) lm.layout ++ lit ".log", none,
        { lm with lastFileStart := w.clock w.reads }, w.after 1 [SysCall.now]⟩ := by
  simp [getLogFileName, IsZero, h, timeNow, World.after]

theorem getLogFileName_interval (fmt : Int → GoString → GoString) (lm : LogMan) (w : World)
    (n : Int) (h0 : lm.lastFileStart ≠ 0) (hd : lm.duration ≠ 0)
    (hs : 1 ≤ slotsAt lm w) :
    getLogFileName fmt lm w n =
      some ⟨fmt (lm.lastFileStart + toInt64 (slotsAt lm w * lm.duration)) lm.layout ++
          lit ".log", none,
        { lm with lastFileStart := lm.lastFileStart + toInt64 (slotsAt lm w * lm.duration) },
        w.after 1 [SysCall.now]⟩ := by
  simp only [slotsAt] at hs ⊢
  simp [getLogFileName, IsZero, h0, hd, timeNow, World.after, hs]

theorem getLogFileName_stat (fmt : Int → GoString → GoString) (lm : LogMan) (w : World)
    (n : Int) (h0 : lm.lastFileStart ≠ 0) (hd : lm.duration ≠ 0)
    (hs : ¬ (1 ≤ slotsAt lm w)) :
    getLogFileName fmt lm w n =
      match statSize w (activeFile fmt lm) with
      | none =>
        some ⟨[], some (lit "logman: could not lstat " ++ activeFile fmt lm), lm,
          w.after 1 [SysCall.now, SysCall.lstat (activeFile fmt lm)]⟩
      | some fileSize =>
        if lm.size ≤ toInt64 (fileSize + n) then
          some ⟨fmt (w.clock (w.reads + 1)) lm.layout ++ lit ".log", none,
            { lm with lastFileStart := w.clock (w.reads + 1) },
            w.after 2 [SysCall.now, SysCall.lstat (activeFile fmt lm), SysCall.now]⟩
        else
          some ⟨fmt lm.lastFileStart lm.layout ++ lit ".log", none, lm,
            w.after 1 [SysCall.now, SysCall.lstat (activeFile fmt lm)]⟩ := by
  simp only [slotsAt] at hs
  have hst : statSize { w with reads := w.reads + 1, calls := w.calls ++ [SysCall.now] }
      (activeFile fmt lm) = statSize w (activeFile fmt lm) := rfl
  simp only [getLogFileName, IsZero, h0, hd, timeNow, hs, Lstat, decide_False,
    Bool.false_eq_true, if_false]
  rw [show lm.path ++ fmt lm.lastFileStart lm.layout ++ lit ".log" = activeFile fmt lm from rfl,
    hst]
  cases statSize w (activeFile fmt lm) with
  | none => simp [World.after]
  | some e =>
    simp only
    split <;> simp [World.after]


/-- `Write` leaves the receiver as `getLogFileName` left it. -/
theorem Write_of_name (fmt : Int → GoString → GoString) (lm : LogMan) (w : World)
    (p : List Byte) (r : NameResult) (h : getLogFileName fmt lm w (p.length : Int) = some r) :
    ∃ r' : WriteResult, Write fmt lm w p = some r' ∧ r'.lm = r.lm := by
  simp only [Write, h]
  cases r.err with
  | some e => exact ⟨_, rfl, rfl⟩
  | none =>
    simp only
    cases (OpenFile r.w (r.lm.path ++ r.name)).1 with
    | error e => exact ⟨_, rfl, rfl⟩
    | ok f => exact ⟨_, rfl, rfl⟩

/-- `Write` when `getLogFileName` fails: nothing is opened. -/
theorem Write_of_name_err (fmt : Int → GoString → GoString) (lm : LogMan) (w : World)
    (p : List Byte) (r : NameResult) (e : GoString)
    (h : getLogFileName fmt lm w (p.length : Int) = some r) (he : r.err = some e) :
    Write fmt lm w p =
      some ⟨0, some (lit "logman: could not retrieve log file name: " ++ e), r.lm, r.w⟩ := by
  simp only [Write, h, he]

/-- `Write` when the name is found, the file opens and the device has room. -/
theorem Write_of_name_ok (fmt : Int → GoString → GoString) (lm : LogMan) (w : World)
    (p : List Byte) (r : NameResult)
    (h : getLogFileName fmt lm w (p.length : Int) = some r) (he : r.err = none)
    (ho : r.w.openErr (r.lm.path ++ r.name) = none) (hsp : p.length ≤ r.w.space) :
    ∃ r' : WriteResult, Write fmt lm w p = some r' ∧ r'.lm = r.lm ∧ r'.n = p.length ∧
      r'.err = none ∧ r'.w.clock = r.w.clock ∧ r'.w.reads = r.w.reads ∧
      r'.w.statFails = r.w.statFails ∧
      r'.w.files (r.lm.path ++ r.name) =
        some ((r.w.files (r.lm.path ++ r.name)).getD [] ++ p) := by
  have hmin : min p.length r.w.space = p.length := Nat.min_eq_left hsp
  simp only [Write, h, he, OpenFile, ho, fileWrite, hmin, lt_irrefl, if_false, if_true,
    List.take_length, Option.getD_some]
  refine ⟨_, rfl, rfl, rfl, rfl, rfl, rfl, rfl, ?_⟩
  simp

/-! ## Claims about `getLogFileName` and `Write` -/

/-- C5: on a `LogMan` whose `lastFileStart` is the zero time, whatever the
payload size, `getLogFileName` sets `lastFileStart` to the clock reading,
returns the name `format(now) + ".log"` with no error, and makes no call but
that reading of the clock (no stat); so the results are the same in any two
worlds whose clocks read the same, whatever files they hold. -/
theorem getLogFileName_first_call (fmt : Int → GoString → GoString) (lm : LogMan)
    (w w' : World) (n : Int) (h : lm.lastFileStart = 0) :
    getLogFileName fmt lm w n =
        some ⟨fmt (w.clock w.reads) lm.layout ++ lit ".log", none,
          { lm with lastFileStart := w.clock w.reads }, w.after 1 [SysCall.now]⟩ ∧
    (w'.clock w'.reads = w.clock w.reads →
      (getLogFileName fmt lm w' n).map (fun r => (r.name, r.err, r.lm)) =
        (getLogFileName fmt lm w n).map (fun r => (r.name, r.err, r.lm))) := by
  refine ⟨getLogFileName_zero fmt lm w n h, ?_⟩
  intro hc
  rw [getLogFileName_zero fmt lm w n h, getLogFileName_zero fmt lm w' n h, hc]
  rfl

theorem getLogFileName_first_call_witness :
    sampleLogMan.lastFileStart = 0 ∧
    (getLogFileName sampleFormat sampleLogMan sampleWorld 60 =
        some ⟨sampleFormat (sampleWorld.clock sampleWorld.reads) sampleLogMan.layout ++ lit ".log",
          none, { sampleLogMan with lastFileStart := sampleWorld.clock sampleWorld.reads },
          sampleWorld.after 1 [SysCall.now]⟩ ∧
     ((sampleWorldWithFiles 7).clock (sampleWorldWithFiles 7).reads =
          sampleWorld.clock sampleWorld.reads →
      (getLogFileName sampleFormat sampleLogMan (sampleWorldWithFiles 7) 60).map
          (fun r => (r.name, r.err, r.lm)) =
        (getLogFileName sampleFormat sampleLogMan sampleWorld 60).map
          (fun r => (r.name, r.err, r.lm)))) :=
  ⟨rfl, getLogFileName_first_call sampleFormat sampleLogMan sampleWorld (sampleWorldWithFiles 7)
    60 rfl⟩

/-- C6, as stated, fails: with the bucket start at 1700-01-01T00:00:00Z, an
interval of one second and the clock at 2024-01-01T00:00:00Z, the elapsed
time is 10224403200 s, more than the largest `Duration`; `time.Since` gives
that largest duration, and the new bucket start is the old one plus
9223372036 s, 1992-04-11T23:47:16Z, not the old one plus
`floor(elapsed / d) * d`, which is the clock reading. -/
theorem getLogFileName_since_saturates :
    (sampleActive 53615260800000000000).lastFileStart ≠ 0 ∧
    sampleFormat 53615260800000000000 RFC3339Nano = lit "1700-01-01T00:00:00Z" ∧
    (sampleActive 53615260800000000000).duration = Second ∧
    sampleWorldAt2024.clock sampleWorldAt2024.reads -
        (sampleActive 53615260800000000000).lastFileStart = 10224403200 * Second ∧
    maxDuration < 10224403200 * Second ∧
    (getLogFileName sampleFormat (sampleActive 53615260800000000000) sampleWorldAt2024 60).map
        (fun r => (r.lm.lastFileStart, r.name, r.err)) =
      some (62838632836000000000, lit "1992-04-11T23:47:16Z.log", none) ∧
    (53615260800000000000 : Int) + 10224403200 * Second / Second * Second ≠
      62838632836000000000 := by
  refine ⟨by decide, by decide, rfl, by decide, by decide, by decide, by decide⟩

/-- C6, amended: in an active state with bucket start `s`, a positive
interval `d` (so any `d` of a second or more) and a clock reading `now` with
`now - s >= d` and `now - s` at most the largest `Duration` (`2 ^ 63 - 1` ns),
`getLogFileName` sets `lastFileStart` to `s + k * d` with
`k = floor((now - s) / d) >= 1` and returns the name of that bucket; the new
start does not pass `now` and falls short of it when `d` does not divide the
elapsed time.  With `d` one second and a second call 2.5 s after the first,
the new start is the first start plus `2 * d`. -/
theorem getLogFileName_interval_elapsed :
    (∀ (fmt : Int → GoString → GoString) (lm : LogMan) (w : World) (n : Int),
      lm.lastFileStart ≠ 0 → 0 < lm.duration →
      lm.duration ≤ w.clock w.reads - lm.lastFileStart →
      w.clock w.reads - lm.lastFileStart ≤ maxDuration →
        1 ≤ (w.clock w.reads - lm.lastFileStart) / lm.duration ∧
        getLogFileName fmt lm w n =
          some ⟨fmt (lm.lastFileStart +
                (w.clock w.reads - lm.lastFileStart) / lm.duration * lm.duration) lm.layout ++
              lit ".log", none,
            { lm with lastFileStart := lm.lastFileStart +
                (w.clock w.reads - lm.lastFileStart) / lm.duration * lm.duration },
            w.after 1 [SysCall.now]⟩ ∧
        lm.lastFileStart + (w.clock w.reads - lm.lastFileStart) / lm.duration * lm.duration
          ≤ w.clock w.reads ∧
        ((w.clock w.reads - lm.lastFileStart) % lm.duration ≠ 0 →
          lm.lastFileStart + (w.clock w.reads - lm.lastFileStart) / lm.duration * lm.duration
            < w.clock w.reads)) ∧
    (∀ (fmt : Int → GoString → GoString) (lm : LogMan) (w : World) (n1 n2 : Int),
      lm.lastFileStart = 0 → lm.duration = Second → w.clock w.reads ≠ 0 →
      w.clock (w.reads + 1) = w.clock w.reads + 2500000000 →
        ∃ r1 r2 : NameResult,
          getLogFileName fmt lm w n1 = some r1 ∧ r1.lm.lastFileStart = w.clock w.reads ∧
          getLogFileName fmt r1.lm r1.w n2 = some r2 ∧
          r2.lm.lastFileStart = w.clock w.reads + 2 * Second ∧
          r2.name = fmt (w.clock w.reads + 2 * Second) lm.layout ++ lit ".log" ∧
          r2.err = none) := by
  constructor
  · intro fmt lm w n h0 hd hel hmax
    have hsub : Sub (w.clock w.reads) lm.lastFileStart = w.clock w.reads - lm.lastFileStart :=
      Sub_of_fits _ _ (by omega) hmax
    obtain ⟨hsl, hk, hprod, _, _⟩ := slotsAt_ge_one lm w hd (by omega) hel
    rw [hsub] at hsl hk hprod
    have hstep := getLogFileName_interval fmt lm w n h0 (by omega) (by rw [hsl]; exact hk)
    rw [hprod] at hstep
    have hle := Int.ediv_mul_le (w.clock w.reads - lm.lastFileStart) (show lm.duration ≠ 0 by omega)
    refine ⟨hk, hstep, by omega, ?_⟩
    intro hmod
    have hdm := Int.ediv_add_emod (w.clock w.reads - lm.lastFileStart) lm.duration
    have hpos := Int.emod_nonneg (w.clock w.reads - lm.lastFileStart)
      (show lm.duration ≠ 0 by omega)
    have hcomm : lm.duration * ((w.clock w.reads - lm.lastFileStart) / lm.duration) =
        (w.clock w.reads - lm.lastFileStart) / lm.duration * lm.duration := Int.mul_comm _ _
    omega
  · intro fmt lm w n1 n2 h0 hd hc0 hc1
    have h1 := getLogFileName_zero fmt lm w n1 h0
    have hs : slotsAt { lm with lastFileStart := w.clock w.reads } (w.after 1 [SysCall.now]) =
        2 := by
      have hdiff : w.clock w.reads + 2500000000 - w.clock w.reads = 2500000000 := by omega
      have hsub : Sub (w.clock w.reads + 2500000000) (w.clock w.reads) = 2500000000 := by
        rw [Sub_of_fits _ _ (by omega) (by rw [hdiff]; decide), hdiff]
      simp only [slotsAt, World.after, hc1, hsub, hd]
      decide
    have h2 := getLogFileName_interval fmt { lm with lastFileStart := w.clock w.reads }
      (w.after 1 [SysCall.now]) n2 hc0 (by rw [hd]; decide) (by rw [hs]; decide)
    have hprod : toInt64 (2 * Second) = 2 * Second := by decide
    refine ⟨_, _, h1, rfl, h2, ?_, ?_, rfl⟩
    · show w.clock w.reads + toInt64 (slotsAt _ _ * lm.duration) = _
      rw [hs, hd, hprod]
    · show fmt (w.clock w.reads + toInt64 (slotsAt _ _ * lm.duration)) _ ++ _ = _
      rw [hs, hd, hprod]

theorem getLogFileName_interval_elapsed_witness :
    1 ≤ ((sampleWorld.after 11 []).clock (sampleWorld.after 11 []).reads -
          (sampleActive 63839664000000000000).lastFileStart) /
        (sampleActive 63839664000000000000).duration ∧
    (getLogFileName sampleFormat (sampleActive 63839664000000000000) (sampleWorld.after 11 []) 60).map
        (fun r => (r.lm.lastFileStart, r.name)) =
      some (63839664002000000000, lit "2024-01-01T00:00:02Z.log") := by
  have h := getLogFileName_interval_elapsed.1 sampleFormat (sampleActive 63839664000000000000)
    (sampleWorld.after 11 []) 60 (by decide) (by decide) (by decide) (by decide)
  refine ⟨h.1, ?_⟩
  rw [h.2.1]
  decide

/-- C7, as stated, fails: with a file of `2 ^ 63 - 1` bytes and a payload of
one byte the sum `e + n` is at least `maxBytes = 100`, yet the 64-bit sum the
code compares is negative and the bucket stays as it is. -/
theorem getLogFileName_size_sum_wraps :
    statSize ((sampleWorldWithFiles maxFileSize).after 1 [])
        (activeFile sampleFormat (sampleActive 63839664000000000000)) =
      some (2 ^ 63 - 1) ∧
    (sampleActive 63839664000000000000).size ≤ (2 ^ 63 - 1 : Int) + 1 ∧
    (getLogFileName sampleFormat (sampleActive 63839664000000000000)
        ((sampleWorldWithFiles maxFileSize).after 1 []) 1).map
          (fun r => (r.lm.lastFileStart, r.name, r.err)) =
      some (63839664000000000000, lit "2024-01-01T00:00:00Z.log", none) := by
  have hst : statSize ((sampleWorldWithFiles maxFileSize).after 1 [])
      (activeFile sampleFormat (sampleActive 63839664000000000000)) = some (2 ^ 63 - 1) := by
    have hlen : ((List.replicate maxFileSize (0 : Byte)).length : Int) = 2 ^ 63 - 1 := by
      rw [List.length_replicate]; decide
    simp only [statSize, sampleWorldWithFiles, sampleWorld, World.after, Bool.false_eq_true,
      if_false, hlen]
  refine ⟨hst, by decide, ?_⟩
  rw [getLogFileName_stat _ _ _ _ (by decide) (by decide) (by decide), hst]
  simp only
  rw [if_neg (by decide)]
  simp only [Option.map_some', sampleActive, sampleLogMan]
  decide

/-- C7, amended: in an active state in which less than one (positive)
interval has elapsed and the stat of the active file succeeds with size `e`,
for a payload size `n` whose sum `e + n` fits in a signed 64-bit integer: if
`e + n >= maxBytes`, `getLogFileName` sets `lastFileStart` to the clock
reading it then takes and returns the name of that bucket; if
`e + n < maxBytes`, it leaves `lastFileStart` as it is and returns the name
of the existing bucket.  With `maxBytes = 100`, a first `Write` of 60 bytes
into an empty directory lands in the initial bucket, and a second `Write` of
60 bytes with no interval elapsed starts a new bucket. -/
theorem getLogFileName_size_trigger :
    (∀ (fmt : Int → GoString → GoString) (lm : LogMan) (w : World) (n e : Int),
      lm.lastFileStart ≠ 0 → 0 < lm.duration →
      w.clock w.reads - lm.lastFileStart < lm.duration →
      statSize w (activeFile fmt lm) = some e → -2 ^ 63 ≤ e + n → e + n < 2 ^ 63 →
        (lm.size ≤ e + n →
          getLogFileName fmt lm w n =
            some ⟨fmt (w.clock (w.reads + 1)) lm.layout ++ lit ".log", none,
              { lm with lastFileStart := w.clock (w.reads + 1) },
              w.after 2 [SysCall.now, SysCall.lstat (activeFile fmt lm), SysCall.now]⟩) ∧
        (e + n < lm.size →
          getLogFileName fmt lm w n =
            some ⟨fmt lm.lastFileStart lm.layout ++ lit ".log", none, lm,
              w.after 1 [SysCall.now, SysCall.lstat (activeFile fmt lm)]⟩)) ∧
    (∀ (fmt : Int → GoString → GoString) (lm : LogMan) (w : World) (p1 p2 : List Byte),
      lm.lastFileStart = 0 → lm.size = 100 → 0 < lm.duration →
      p1.length = 60 → p2.length = 60 → w.clock w.reads ≠ 0 →
      w.clock (w.reads + 1) - w.clock w.reads < lm.duration →
      w.files (lm.path ++ (fmt (w.clock w.reads) lm.layout ++ lit ".log")) = none →
      w.openErr (lm.path ++ (fmt (w.clock w.reads) lm.layout ++ lit ".log")) = none →
      w.statFails (lm.path ++ (fmt (w.clock w.reads) lm.layout ++ lit ".log")) = false →
      60 ≤ w.space →
        ∃ r1 r2 : WriteResult,
          Write fmt lm w p1 = some r1 ∧ r1.err = none ∧ r1.n = 60 ∧
          r1.lm.lastFileStart = w.clock w.reads ∧
          r1.w.files (lm.path ++ (fmt (w.clock w.reads) lm.layout ++ lit ".log")) = some p1 ∧
          Write fmt r1.lm r1.w p2 = some r2 ∧
          r2.lm.lastFileStart = w.clock (w.reads + 2)) := by
  constructor
  · intro fmt lm w n e h0 hd hel hst hlo hhi
    have hbr := getLogFileName_stat fmt lm w n h0 (by omega) (slotsAt_lt_one _ _ hd hel)
    rw [hst] at hbr
    simp only at hbr
    rw [toInt64_of_fits _ hlo hhi] at hbr
    constructor
    · intro hge
      rw [hbr, if_pos hge]
    · intro hlt
      rw [hbr, if_neg (by omega)]
  · intro fmt lm w p1 p2 h0 hsz hd hp1 hp2 hc0 hel hfile hopen hstat hspace
    have hn1 := getLogFileName_zero fmt lm w (p1.length : Int) h0
    obtain ⟨r1, hw1, hlm1, hcount, herr1, hclock, hreads, hsf, hfiles⟩ :=
      Write_of_name_ok fmt lm w p1 _ hn1 rfl hopen (by rw [hp1]; exact hspace)
    simp only [World.after, hfile, Option.getD_none, List.nil_append] at hclock hreads hsf hfiles
    have hstart : r1.lm.lastFileStart = w.clock w.reads := by rw [hlm1]
    have hact : activeFile fmt r1.lm =
        lm.path ++ (fmt (w.clock w.reads) lm.layout ++ lit ".log") := by
      rw [hlm1]; simp [activeFile]
    have hst2 : statSize r1.w (activeFile fmt r1.lm) = some 60 := by
      rw [hact]
      simp [statSize, hsf, hstat, hfiles, hp1]
    have hn2 := getLogFileName_stat fmt r1.lm r1.w (p2.length : Int)
      (by rw [hstart]; exact hc0) (by rw [hlm1]; simp only; omega)
      (slotsAt_lt_one _ _ (by rw [hlm1]; exact hd)
        (by rw [hstart, hclock, hreads, hlm1]; exact hel))
    rw [hst2, hp2] at hn2
    simp only at hn2
    rw [if_pos (by rw [hlm1]; simp only [hsz]; decide)] at hn2
    obtain ⟨r2, hw2, hlm2⟩ := Write_of_name fmt r1.lm r1.w p2 _ (by rw [hp2]; exact hn2)
    refine ⟨r1, r2, hw1, herr1, by rw [hcount, hp1]; rfl, hstart, hfiles, hw2, ?_⟩
    rw [hlm2]
    simp only [hclock, hreads]

theorem getLogFileName_size_trigger_witness :
    (getLogFileName sampleFormat (sampleActive 63839664000000000000)
        ((sampleWorldWithFiles 60).after 1 []) 60).map (fun r => (r.lm.lastFileStart, r.name)) =
      some (63839664000500000000, lit "2024-01-01T00:00:00.5Z.log") := by
  have h := (getLogFileName_size_trigger.1 sampleFormat (sampleActive 63839664000000000000)
    ((sampleWorldWithFiles 60).after 1 []) 60 60 (by decide) (by decide) (by decide)
    (by decide) (by decide) (by decide)).1 (by decide)
  rw [h]
  decide

/-- C8: in an active state in which less than one (positive) interval has
elapsed, when the stat of the active file fails, `getLogFileName` returns an
error and leaves the `LogMan` as it was, and `Write` returns count 0 with an
error; the only calls made are the clock reading and the stat, so no file is
opened or created and files and handles are as before. -/
theorem getLogFileName_stat_failure (fmt : Int → GoString → GoString) (lm : LogMan)
    (w : World) (n : Int) (p : List Byte)
    (h0 : lm.lastFileStart ≠ 0) (hd : 0 < lm.duration)
    (hel : w.clock w.reads - lm.lastFileStart < lm.duration)
    (hst : statSize w (activeFile fmt lm) = none) :
    getLogFileName fmt lm w n =
        some ⟨[], some (lit "logman: could not lstat " ++ activeFile fmt lm), lm,
          w.after 1 [SysCall.now, SysCall.lstat (activeFile fmt lm)]⟩ ∧
    Write fmt lm w p =
        some ⟨0, some (lit "logman: could not retrieve log file name: " ++
              (lit "logman: could not lstat " ++ activeFile fmt lm)), lm,
          w.after 1 [SysCall.now, SysCall.lstat (activeFile fmt lm)]⟩ ∧
    (w.after 1 [SysCall.now, SysCall.lstat (activeFile fmt lm)]).files = w.files ∧
    (w.after 1 [SysCall.now, SysCall.lstat (activeFile fmt lm)]).handles = w.handles := by
  have hbr : ∀ m : Int, getLogFileName fmt lm w m =
      some ⟨[], some (lit "logman: could not lstat " ++ activeFile fmt lm), lm,
        w.after 1 [SysCall.now, SysCall.lstat (activeFile fmt lm)]⟩ := by
    intro m
    rw [getLogFileName_stat fmt lm w m h0 (by omega) (slotsAt_lt_one _ _ hd hel), hst]
  refine ⟨hbr n, ?_, rfl, rfl⟩
  rw [Write_of_name_err fmt lm w p _ _ (hbr _) rfl]

theorem getLogFileName_stat_failure_witness :
    statSize (sampleWorldNoStat.after 1 [])
        (activeFile sampleFormat (sampleActive 63839664000000000000)) = none ∧
    (Write sampleFormat (sampleActive 63839664000000000000) (sampleWorldNoStat.after 1 [])
        [104, 105]).map (fun r => (r.n, r.lm.lastFileStart, r.w.handles, r.w.calls)) =
      some (0, 63839664000000000000, [],
        [SysCall.now, SysCall.lstat (lit "logs/2024-01-01T00:00:00Z.log")]) := by
  have h := getLogFileName_stat_failure sampleFormat (sampleActive 63839664000000000000)
    (sampleWorldNoStat.after 1 []) 2 [104, 105] (by decide) (by decide) (by decide) (by decide)
  refine ⟨by decide, ?_⟩
  rw [h.2.1]
  decide

/-! ## Lemmas: one step of a run -/

theorem getLogFileName_zero_duration (fmt : Int → GoString → GoString) (lm : LogMan)
    (w : World) (n : Int) (h0 : lm.lastFileStart ≠ 0) (hd : lm.duration = 0) :
    getLogFileName fmt lm w n = none := by
  simp [getLogFileName, IsZero, h0, hd]

/-- `Write` reads the clock only through `getLogFileName`. -/
theorem Write_clock (fmt : Int → GoString → GoString) (lm : LogMan) (w : World)
    (p : List Byte) (r' : WriteResult) (h : Write fmt lm w p = some r') :
    ∃ r : NameResult, getLogFileName fmt lm w (p.length : Int) = some r ∧ r'.lm = r.lm ∧
      r'.w.clock = r.w.clock ∧ r'.w.reads = r.w.reads := by
  cases hn : getLogFileName fmt lm w (p.length : Int) with
  | none => simp [Write, hn] at h
  | some r =>
    refine ⟨r, rfl, ?_⟩
    simp only [Write, hn] at h
    cases he : r.err with
    | some e =>
      simp only [he, Option.some.injEq] at h
      subst h
      exact ⟨rfl, rfl, rfl⟩
    | none =>
      simp only [he] at h
      cases ho : (OpenFile r.w (r.lm.path ++ r.name)).1 with
      | error e =>
        simp only [ho, Option.some.injEq] at h
        subst h
        refine ⟨rfl, ?_, ?_⟩ <;> (simp only [OpenFile]; split <;> rfl)
      | ok f =>
        simp only [ho, Option.some.injEq] at h
        subst h
        refine ⟨rfl, ?_, ?_⟩ <;> (simp only [fileWrite, OpenFile]; split <;> rfl)

/-- One call of `getLogFileName` under a clock that never goes backwards. -/
theorem getLogFileName_step (fmt : Int → GoString → GoString) (lm : LogMan) (w : World)
    (n : Int) (r : NameResult) (hmono : clockMonotone w) (hinv : startSeen lm w)
    (h : getLogFileName fmt lm w n = some r) :
    r.w.clock = w.clock ∧ w.reads ≤ r.w.reads ∧ startSeen r.lm r.w ∧
    (lm.lastFileStart ≠ 0 → lm.lastFileStart ≤ r.lm.lastFileStart) ∧
    (r.lm.lastFileStart ≠ lm.lastFileStart →
      ∃ j : Nat, w.reads ≤ j ∧ j < r.w.reads ∧ r.lm.lastFileStart ≤ w.clock j) := by
  by_cases h0 : lm.lastFileStart = 0
  · rw [getLogFileName_zero fmt lm w n h0, Option.some.injEq] at h
    subst h
    refine ⟨rfl, Nat.le_succ _, ?_, fun hne => absurd h0 hne, ?_⟩
    · intro _
      exact ⟨w.reads, Nat.lt_succ_self _, le_refl _⟩
    · intro _
      exact ⟨w.reads, le_refl _, Nat.lt_succ_self _, le_refl _⟩
  · obtain ⟨j, hj, hsj⟩ := hinv h0
    have hnow : lm.lastFileStart ≤ w.clock w.reads := le_trans hsj (hmono j w.reads (by omega))
    by_cases hd : lm.duration = 0
    · rw [getLogFileName_zero_duration fmt lm w n h0 hd] at h
      exact absurd h (by simp)
    · by_cases hs : 1 ≤ slotsAt lm w
      · rw [getLogFileName_interval fmt lm w n h0 hd hs, Option.some.injEq] at h
        subst h
        obtain ⟨_, hge, hle⟩ := slotsAt_ge_one_inv lm w (by omega) hs
        refine ⟨rfl, Nat.le_succ _, ?_, fun _ => by simp only; omega, ?_⟩
        · intro _
          exact ⟨w.reads, Nat.lt_succ_self _, by simp only [World.after]; omega⟩
        · intro _
          exact ⟨w.reads, le_refl _, Nat.lt_succ_self _, by simp only; omega⟩
      · rw [getLogFileName_stat fmt lm w n h0 hd hs] at h
        cases hst : statSize w (activeFile fmt lm) with
        | none =>
          simp only [hst, Option.some.injEq] at h
          subst h
          refine ⟨rfl, Nat.le_succ _, ?_, fun _ => le_refl _, fun hne => absurd rfl hne⟩
          intro _
          exact ⟨j, by simp only [World.after]; omega, hsj⟩
        | some e =>
          simp only [hst] at h
          by_cases htr : lm.size ≤ toInt64 (e + n)
          · rw [if_pos htr, Option.some.injEq] at h
            subst h
            have hnext : w.clock w.reads ≤ w.clock (w.reads + 1) := hmono _ _ (Nat.le_succ _)
            refine ⟨rfl, by simp only [World.after]; omega, ?_, fun _ => by
              simp only; omega, ?_⟩
            · intro _
              exact ⟨w.reads + 1, by simp only [World.after]; omega, le_refl _⟩
            · intro _
              exact ⟨w.reads + 1, by omega, by simp only [World.after]; omega, le_refl _⟩
          · rw [if_neg htr, Option.some.injEq] at h
            subst h
            refine ⟨rfl, Nat.le_succ _, ?_, fun _ => le_refl _, fun hne => absurd rfl hne⟩
            intro _
            exact ⟨j, by simp only [World.after]; omega, hsj⟩

/-- One event of a run under a clock that never goes backwards. -/
theorem step_spec (fmt : Int → GoString → GoString) (s1 s2 : LogMan × World) (c : Call)
    (hmono : clockMonotone s1.2) (hinv : startSeen s1.1 s1.2) (h : step fmt s1 c = some s2) :
    s2.2.clock = s1.2.clock ∧ s1.2.reads ≤ s2.2.reads ∧ startSeen s2.1 s2.2 ∧
    (s1.1.lastFileStart ≠ 0 → s1.1.lastFileStart ≤ s2.1.lastFileStart) ∧
    (s2.1.lastFileStart ≠ s1.1.lastFileStart →
      ∃ j : Nat, s1.2.reads ≤ j ∧ j < s2.2.reads ∧ s2.1.lastFileStart ≤ s1.2.clock j) := by
  cases c with
  | name n =>
    simp only [step, Option.map_eq_some'] at h
    obtain ⟨r, hr, rfl⟩ := h
    exact getLogFileName_step fmt s1.1 s1.2 n r hmono hinv hr
  | write p =>
    simp only [step, Option.map_eq_some'] at h
    obtain ⟨r', hr', rfl⟩ := h
    obtain ⟨r, hr, hlm, hclock, hreads⟩ := Write_clock fmt s1.1 s1.2 p r' hr'
    obtain ⟨h1, h2, h3, h4, h5⟩ := getLogFileName_step fmt s1.1 s1.2 _ r hmono hinv hr
    simp only [hlm, hclock, hreads]
    refine ⟨h1, h2, ?_, h4, h5⟩
    intro hne
    obtain ⟨j, hj, hle⟩ := h3 hne
    exact ⟨j, by rw [hreads]; exact hj, by rw [hclock]; exact hle⟩
  | others files statFails openErr space =>
    simp only [step, Option.some.injEq] at h
    subst h
    exact ⟨rfl, le_refl _, hinv, fun _ => le_refl _, fun hne => absurd rfl hne⟩

/-- A run keeps the clock and the fact that the bucket start was seen. -/
theorem run_spec (fmt : Int → GoString → GoString) (cs : List Call) :
    ∀ s s1 : LogMan × World, clockMonotone s.2 → startSeen s.1 s.2 →
      run fmt s cs = some s1 → s1.2.clock = s.2.clock ∧ startSeen s1.1 s1.2 := by
  induction cs with
  | nil =>
    intro s s1 _ hinv h
    simp only [run, Option.some.injEq] at h
    subst h
    exact ⟨rfl, hinv⟩
  | cons c cs ih =>
    intro s s1 hmono hinv h
    simp only [run] at h
    cases hst : step fmt s c with
    | none => simp [hst] at h
    | some s' =>
      simp only [hst] at h
      obtain ⟨hc, _, hinv', _, _⟩ := step_spec fmt s s' c hmono hinv hst
      have hmono' : clockMonotone s'.2 := by
        intro i j hij; rw [hc]; exact hmono i j hij
      obtain ⟨hc2, hinv2⟩ := ih s' s1 hmono' hinv' h
      exact ⟨by rw [hc2, hc], hinv2⟩

/-! ## Claims about runs -/

/-- C10: along every sequence of `getLogFileName` and `Write` calls on a
fresh `LogMan`, with any payloads and with other processes changing the
files in between, under a clock that never goes backwards: from one call to
the next a non-zero `lastFileStart` does not decrease, and a call that
changes `lastFileStart` sets it no later than a clock reading taken during
that call. -/
theorem lastFileStart_monotone (fmt : Int → GoString → GoString) (lm : LogMan) (w : World)
    (cs : List Call) (c : Call) (s1 s2 : LogMan × World)
    (hmono : clockMonotone w) (hfresh : lm.lastFileStart = 0)
    (hrun : run fmt (lm, w) cs = some s1) (hstep : step fmt s1 c = some s2) :
    (s1.1.lastFileStart ≠ 0 → s1.1.lastFileStart ≤ s2.1.lastFileStart) ∧
    (s2.1.lastFileStart ≠ s1.1.lastFileStart →
      ∃ j : Nat, s1.2.reads ≤ j ∧ j < s2.2.reads ∧ s2.1.lastFileStart ≤ w.clock j) := by
  have hinv : startSeen lm w := fun hne => absurd hfresh hne
  obtain ⟨hc, hinv1⟩ := run_spec fmt cs (lm, w) s1 hmono hinv hrun
  have hmono1 : clockMonotone s1.2 := by
    intro i j hij; rw [hc]; exact hmono i j hij
  obtain ⟨_, _, _, h4, h5⟩ := step_spec fmt s1 s2 c hmono1 hinv1 hstep
  refine ⟨h4, ?_⟩
  intro hne
  obtain ⟨j, hj1, hj2, hle⟩ := h5 hne
  exact ⟨j, hj1, hj2, by rw [← show s1.2.clock = w.clock from hc]; exact hle⟩

theorem sampleWorld_clockMonotone (n : Nat) : clockMonotone (sampleWorldWithFiles n) := by
  intro i j hij
  simp only [sampleWorldWithFiles, sampleWorld]
  omega

theorem lastFileStart_monotone_witness :
    run sampleFormat (sampleLogMan, sampleWorldWithFiles 60) [Call.name 60] =
        some sampleAfterFirst ∧
    step sampleFormat sampleAfterFirst (Call.name 60) = some sampleAfterSecond ∧
    (sampleAfterFirst.1.lastFileStart ≠ 0 →
      sampleAfterFirst.1.lastFileStart ≤ sampleAfterSecond.1.lastFileStart) ∧
    (sampleAfterSecond.1.lastFileStart ≠ sampleAfterFirst.1.lastFileStart →
      ∃ j : Nat, sampleAfterFirst.2.reads ≤ j ∧ j < sampleAfterSecond.2.reads ∧
        sampleAfterSecond.1.lastFileStart ≤ (sampleWorldWithFiles 60).clock j) :=
  ⟨rfl, rfl,
   lastFileStart_monotone sampleFormat sampleLogMan (sampleWorldWithFiles 60) [Call.name 60]
     (Call.name 60) sampleAfterFirst sampleAfterSecond (sampleWorld_clockMonotone 60) rfl rfl rfl⟩

/-! ## Lemmas: lexical order of formatted fields -/

theorem strLess_cons_of (a b : Byte) (l1 l2 : GoString)
    (h : a < b ∨ (a = b ∧ strLess l1 l2 = true)) : strLess (a :: l1) (b :: l2) = true := by
  rcases h with h | ⟨rfl, h⟩
  · simp [strLess, h]
  · simp [strLess, h]

theorem strLess_append_left (p l1 l2 : GoString) (h : strLess l1 l2 = true) :
    strLess (p ++ l1) (p ++ l2) = true := by
  induction p with
  | nil => exact h
  | cons a p ih => exact strLess_cons_of a a _ _ (Or.inr ⟨rfl, ih⟩)

theorem digitByte_val (d : Nat) : (digitByte d).val = 48 + d % 10 := by
  simp only [digitByte, Fin.ofNat, Fin.val_mk]
  omega

theorem digitByte_lt (a b : Nat) : digitByte a < digitByte b ↔ a % 10 < b % 10 := by
  rw [Fin.lt_def, digitByte_val, digitByte_val]
  omega

theorem digitByte_eq (a b : Nat) (h : a % 10 = b % 10) : digitByte a = digitByte b := by
  apply Fin.ext
  rw [digitByte_val, digitByte_val, h]

theorem appendInt_two (x : Nat) (hx : x < 100) :
    appendInt (x : Int) 2 = [digitByte (x / 10), digitByte x] := by
  have hneg : ¬ ((x : Int) < 0) := by omega
  simp only [appendInt, Int.natAbs_ofNat, if_neg hneg, true_and, if_pos hx, List.nil_append]

theorem appendInt_four (x : Nat) (hx : x < 10000) :
    appendInt (x : Int) 4 =
      [digitByte (x / 1000), digitByte (x / 100), digitByte (x / 10), digitByte x] := by
  have hneg : ¬ ((x : Int) < 0) := by omega
  have h42 : ¬ ((4 : Nat) = 2 ∧ x < 100) := by omega
  simp only [appendInt, Int.natAbs_ofNat, if_neg hneg, if_neg h42, true_and, if_pos hx,
    List.nil_append]

/-- Two-digit fields sort as their values. -/
theorem appendInt_two_lt (x y : Nat) (hxy : x < y) (hy : y < 100) (l1 l2 : GoString) :
    strLess (appendInt (x : Int) 2 ++ l1) (appendInt (y : Int) 2 ++ l2) = true := by
  rw [appendInt_two x (by omega), appendInt_two y hy]
  simp only [List.cons_append, List.nil_append]
  by_cases h1 : x / 10 < y / 10
  · exact strLess_cons_of _ _ _ _ (Or.inl ((digitByte_lt _ _).mpr (by omega)))
  · refine strLess_cons_of _ _ _ _ (Or.inr ⟨digitByte_eq _ _ (by omega), ?_⟩)
    exact strLess_cons_of _ _ _ _ (Or.inl ((digitByte_lt _ _).mpr (by omega)))

/-- Four-digit fields sort as their values. -/
theorem appendInt_four_lt (x y : Nat) (hxy : x < y) (hy : y < 10000) (l1 l2 : GoString) :
    strLess (appendInt (x : Int) 4 ++ l1) (appendInt (y : Int) 4 ++ l2) = true := by
  rw [appendInt_four x (by omega), appendInt_four y hy]
  simp only [List.cons_append, List.nil_append]
  by_cases h1 : x / 1000 < y / 1000
  · exact strLess_cons_of _ _ _ _ (Or.inl ((digitByte_lt _ _).mpr (by omega)))
  · refine strLess_cons_of _ _ _ _ (Or.inr ⟨digitByte_eq _ _ (by omega), ?_⟩)
    by_cases h2 : x / 100 < y / 100
    · exact strLess_cons_of _ _ _ _ (Or.inl ((digitByte_lt _ _).mpr (by omega)))
    · refine strLess_cons_of _ _ _ _ (Or.inr ⟨digitByte_eq _ _ (by omega), ?_⟩)
      by_cases h3 : x / 10 < y / 10
      · exact strLess_cons_of _ _ _ _ (Or.inl ((digitByte_lt _ _).mpr (by omega)))
      · refine strLess_cons_of _ _ _ _ (Or.inr ⟨digitByte_eq _ _ (by omega), ?_⟩)
        exact strLess_cons_of _ _ _ _ (Or.inl ((digitByte_lt _ _).mpr (by omega)))

/-! ## Lemmas: the civil date -/

theorem yearLength_eq (y : Int) :
    (y % 4 = 0 ∧ (y % 100 ≠ 0 ∨ y % 400 = 0) → yearLength y = 366) ∧
    (¬ (y % 4 = 0 ∧ (y % 100 ≠ 0 ∨ y % 400 = 0)) → yearLength y = 365) := by
  constructor
  · intro h; simp only [yearLength, isLeap, decide_eq_true_eq, if_pos h]
  · intro h; simp only [yearLength, isLeap, decide_eq_true_eq, if_neg h]

theorem cycleSplit_spec (d0 : Nat) (h : d0 < 146097) :
    d0 = 36524 * (cycleSplit d0).1 + 1461 * (cycleSplit d0).2.1 + 365 * (cycleSplit d0).2.2.1 +
        (cycleSplit d0).2.2.2 ∧
    (cycleSplit d0).1 ≤ 3 ∧ (cycleSplit d0).2.1 ≤ 24 ∧ (cycleSplit d0).2.2.1 ≤ 3 ∧
    ((cycleSplit d0).2.2.2 < 365 ∨
      ((cycleSplit d0).2.2.2 = 365 ∧ (cycleSplit d0).2.2.1 = 3 ∧
        ((cycleSplit d0).2.1 < 24 ∨ (cycleSplit d0).1 = 3))) := by
  simp only [cycleSplit]
  obtain ⟨c, hc⟩ : ∃ c, c = d0 / 36524 := ⟨_, rfl⟩
  rw [← hc]
  have hc4 : c ≤ 4 := by omega
  obtain ⟨n100, hn100⟩ : ∃ n, n = c - c / 4 := ⟨_, rfl⟩
  rw [← hn100]
  have h100 : n100 ≤ 3 ∧ 36524 * n100 ≤ d0 ∧ d0 - 36524 * n100 ≤ 36524 ∧
      (n100 < 3 → d0 - 36524 * n100 < 36524) := by omega
  obtain ⟨d1, hd1⟩ : ∃ d, d = d0 - 36524 * n100 := ⟨_, rfl⟩
  rw [← hd1]
  have hd1' : d0 = 36524 * n100 + d1 ∧ d1 ≤ 36524 ∧ (n100 < 3 → d1 < 36524) := by omega
  obtain ⟨n4, hn4⟩ : ∃ n, n = d1 / 1461 := ⟨_, rfl⟩
  rw [← hn4]
  obtain ⟨d2, hd2⟩ : ∃ d, d = d1 - 1461 * n4 := ⟨_, rfl⟩
  rw [← hd2]
  have hd2' : d1 = 1461 * n4 + d2 ∧ d2 ≤ 1460 ∧ n4 ≤ 24 ∧ (d1 < 36524 → n4 = 24 → d2 < 1460) := by
    omega
  obtain ⟨c1, hc1⟩ : ∃ c, c = d2 / 365 := ⟨_, rfl⟩
  rw [← hc1]
  have hc14 : c1 ≤ 4 := by omega
  omega

/-- `yearDay` splits a day count into the year and the day of that year. -/
theorem yearDay_spec (days : Int) :
    days = daysBeforeYear (yearDay days).1 + ((yearDay days).2 : Int) ∧
      (yearDay days).2 < yearLength (yearDay days).1 := by
  have hl := yearLength_eq (yearDay days).1
  generalize yearLength (yearDay days).1 = len at hl ⊢
  have hlt : (days % 146097).toNat < 146097 := by omega
  have hsp := cycleSplit_spec (days % 146097).toNat hlt
  simp only [yearDay, daysBeforeYear] at hl ⊢
  have hd0 : days = 146097 * (days / 146097) + ((days % 146097).toNat : Int) := by omega
  generalize (cycleSplit (days % 146097).toNat).1 = n100 at hsp hl ⊢
  generalize (cycleSplit (days % 146097).toNat).2.1 = n4 at hsp hl ⊢
  generalize (cycleSplit (days % 146097).toNat).2.2.1 = n1 at hsp hl ⊢
  generalize (cycleSplit (days % 146097).toNat).2.2.2 = d3 at hsp hl ⊢
  generalize (days % 146097).toNat = d0 at hsp hd0
  generalize days / 146097 = q at hd0 hl ⊢
  obtain ⟨h1, h2, h3, h4, h5⟩ := hsp
  push_cast at hl ⊢
  omega

theorem daysBeforeYear_succ (y : Int) :
    daysBeforeYear (y + 1) = daysBeforeYear y + (yearLength y : Int) := by
  have hl := yearLength_eq y
  generalize yearLength y = len at hl ⊢
  simp only [daysBeforeYear]
  omega

theorem daysBeforeYear_add (y : Int) (n : Nat) : daysBeforeYear y ≤ daysBeforeYear (y + n) := by
  induction n with
  | zero => simp
  | succ n ih =>
    have h := daysBeforeYear_succ (y + n)
    have hcast : y + ((n + 1 : Nat) : Int) = y + (n : Int) + 1 := by push_cast; ring
    rw [hcast, h]
    omega

theorem daysBeforeYear_mono (a b : Int) (h : a ≤ b) : daysBeforeYear a ≤ daysBeforeYear b := by
  have hb : b = a + ((b - a).toNat : Int) := by omega
  rw [hb]
  exact daysBeforeYear_add a _

/-- Later days have a later year, or the same year and a later day of it. -/
theorem yearDay_lt (d1 d2 : Int) (h : d1 < d2) :
    (yearDay d1).1 < (yearDay d2).1 ∨
      ((yearDay d1).1 = (yearDay d2).1 ∧ (yearDay d1).2 < (yearDay d2).2) := by
  obtain ⟨h1, h1'⟩ := yearDay_spec d1
  obtain ⟨h2, h2'⟩ := yearDay_spec d2
  rcases lt_trichotomy (yearDay d1).1 (yearDay d2).1 with hlt | heq | hgt
  · exact Or.inl hlt
  · right
    refine ⟨heq, ?_⟩
    rw [heq] at h1
    omega
  · exfalso
    have hm := daysBeforeYear_mono ((yearDay d2).1 + 1) (yearDay d1).1 (by omega)
    rw [daysBeforeYear_succ] at hm
    omega

/-- Days from year 1 up to the end of year 9999 have a four-digit year. -/
theorem yearDay_range (d : Int) (h0 : 0 ≤ d) (hmax : d < 3652059) :
    1 ≤ (yearDay d).1 ∧ (yearDay d).1 < 10000 := by
  obtain ⟨h1, h1'⟩ := yearDay_spec d
  constructor
  · by_contra hc
    have hm := daysBeforeYear_mono ((yearDay d).1 + 1) 1 (by omega)
    rw [daysBeforeYear_succ] at hm
    have : daysBeforeYear 1 = 0 := by decide
    omega
  · by_contra hc
    have hm := daysBeforeYear_mono 10000 (yearDay d).1 (by omega)
    have : daysBeforeYear 10000 = 3652059 := by decide
    omega

/-- Order of (month, day) pairs. -/
theorem monthDay_succ_false :
    ∀ yd : Nat, yd < 364 →
      (monthDay false yd).1 < (monthDay false (yd + 1)).1 ∨
        ((monthDay false yd).1 = (monthDay false (yd + 1)).1 ∧
          (monthDay false yd).2 < (monthDay false (yd + 1)).2) := by
  decide

theorem monthDay_succ_true :
    ∀ yd : Nat, yd < 365 →
      (monthDay true yd).1 < (monthDay true (yd + 1)).1 ∨
        ((monthDay true yd).1 = (monthDay true (yd + 1)).1 ∧
          (monthDay true yd).2 < (monthDay true (yd + 1)).2) := by
  decide

theorem monthDay_bound_false :
    ∀ yd : Nat, yd < 365 → (monthDay false yd).1 < 100 ∧ (monthDay false yd).2 < 100 := by
  decide

theorem monthDay_bound_true :
    ∀ yd : Nat, yd < 366 → (monthDay true yd).1 < 100 ∧ (monthDay true yd).2 < 100 := by
  decide

theorem monthDay_lt (leap : Bool) (a b : Nat) (hab : a < b)
    (hb : b < if leap then 366 else 365) :
    (monthDay leap a).1 < (monthDay leap b).1 ∨
      ((monthDay leap a).1 = (monthDay leap b).1 ∧ (monthDay leap a).2 < (monthDay leap b).2) := by
  induction b with
  | zero => omega
  | succ k ih =>
    have hstep : (monthDay leap k).1 < (monthDay leap (k + 1)).1 ∨
        ((monthDay leap k).1 = (monthDay leap (k + 1)).1 ∧
          (monthDay leap k).2 < (monthDay leap (k + 1)).2) := by
      cases leap with
      | false => exact monthDay_succ_false k (by simp at hb; omega)
      | true => exact monthDay_succ_true k (by simp at hb; omega)
    by_cases hak : a = k
    · rw [hak]; exact hstep
    · have hlt := ih (by omega) (by split at hb <;> simp_all <;> omega)
      omega

theorem monthDay_bound (leap : Bool) (a : Nat) (ha : a < if leap then 366 else 365) :
    (monthDay leap a).1 < 100 ∧ (monthDay leap a).2 < 100 := by
  cases leap with
  | false => exact monthDay_bound_false a (by simpa using ha)
  | true => exact monthDay_bound_true a (by simpa using ha)

/-! ## Lemmas: the formatted second -/

theorem strLess_field_two (x y : Nat) (hy : y < 100) (l1 l2 : GoString)
    (h : x < y ∨ (x = y ∧ strLess l1 l2 = true)) :
    strLess (appendInt (x : Int) 2 ++ l1) (appendInt (y : Int) 2 ++ l2) = true := by
  rcases h with h | ⟨rfl, h⟩
  · exact appendInt_two_lt x y h hy l1 l2
  · exact strLess_append_left _ _ _ h

theorem strLess_field_four (x y : Nat) (hy : y < 10000) (l1 l2 : GoString)
    (h : x < y ∨ (x = y ∧ strLess l1 l2 = true)) :
    strLess (appendInt (x : Int) 4 ++ l1) (appendInt (y : Int) 4 ++ l2) = true := by
  rcases h with h | ⟨rfl, h⟩
  · exact appendInt_four_lt x y h hy l1 l2
  · exact strLess_append_left _ _ _ h

theorem strLess_sep (c : Byte) (l1 l2 : GoString) (h : strLess l1 l2 = true) :
    strLess (c :: l1) (c :: l2) = true :=
  strLess_cons_of c c l1 l2 (Or.inr ⟨rfl, h⟩)

/-- The six fields of a formatted second, laid out from the left. -/
theorem formatSeconds_append (sec : Int) (r : GoString) :
    formatSeconds sec ++ r =
      appendInt (yearDay (sec / 86400)).1 4 ++ (45 ::
        (appendInt ((monthDay (isLeap (yearDay (sec / 86400)).1)
            (yearDay (sec / 86400)).2).1 : Nat) 2 ++ (45 ::
        (appendInt ((monthDay (isLeap (yearDay (sec / 86400)).1)
            (yearDay (sec / 86400)).2).2 : Nat) 2 ++ (84 ::
        (appendInt (((sec % 86400).toNat / 3600 : Nat) : Int) 2 ++ (58 ::
        (appendInt (((sec % 86400).toNat % 3600 / 60 : Nat) : Int) 2 ++ (58 ::
        (appendInt (((sec % 86400).toNat % 60 : Nat) : Int) 2 ++ r)))))))))) := by
  simp only [formatSeconds, List.append_assoc, List.cons_append, List.nil_append]

/-- Formatted seconds between year 1 and year 9999 sort as the seconds do,
whatever follows them. -/
theorem formatSeconds_lt (s1 s2 : Int) (h0 : 0 ≤ s1) (hlt : s1 < s2)
    (hmax : s2 < 315537897600) (r1 r2 : GoString) :
    strLess (formatSeconds s1 ++ r1) (formatSeconds s2 ++ r2) = true := by
  rw [formatSeconds_append, formatSeconds_append]
  have hd1 : 0 ≤ s1 / 86400 := by omega
  have hd2 : s2 / 86400 < 3652059 := by omega
  have hdle : s1 / 86400 ≤ s2 / 86400 := by omega
  obtain ⟨hy1, hy1'⟩ := yearDay_range (s1 / 86400) hd1 (by omega)
  obtain ⟨hy2, hy2'⟩ := yearDay_range (s2 / 86400) (by omega) hd2
  obtain ⟨_, hlen2⟩ := yearDay_spec (s2 / 86400)
  have hlen2' : (yearDay (s2 / 86400)).2 <
      if isLeap (yearDay (s2 / 86400)).1 then 366 else 365 := by
    simpa [yearLength] using hlen2
  obtain ⟨hm2, hdd2⟩ := monthDay_bound _ _ hlen2'
  have hcast1 : (yearDay (s1 / 86400)).1 = (((yearDay (s1 / 86400)).1.toNat : Nat) : Int) := by
    omega
  have hcast2 : (yearDay (s2 / 86400)).1 = (((yearDay (s2 / 86400)).1.toNat : Nat) : Int) := by
    omega
  have hr1 : (s1 % 86400).toNat < 86400 := by omega
  have hr2 : (s2 % 86400).toNat < 86400 := by omega
  rcases lt_or_eq_of_le hdle with hdlt | hdeq
  · -- a later day
    rcases yearDay_lt _ _ hdlt with hy | ⟨hyeq, hyd⟩
    · rw [hcast1, hcast2]
      exact strLess_field_four _ _ (by omega) _ _ (Or.inl (by omega))
    · have key := monthDay_lt (isLeap (yearDay (s2 / 86400)).1) _ _ hyd hlen2'
      rw [hyeq]
      refine strLess_append_left _ _ _ (strLess_sep _ _ _ ?_)
      rcases key with hm | ⟨hmeq, hdd⟩
      · exact strLess_field_two _ _ hm2 _ _ (Or.inl hm)
      · refine strLess_field_two _ _ hm2 _ _ (Or.inr ⟨hmeq, strLess_sep _ _ _ ?_⟩)
        exact strLess_field_two _ _ hdd2 _ _ (Or.inl hdd)
  · -- the same day, a later second of it
    rw [hdeq]
    refine strLess_append_left _ _ _ (strLess_sep _ _ _ ?_)
    refine strLess_append_left _ _ _ (strLess_sep _ _ _ ?_)
    refine strLess_append_left _ _ _ (strLess_sep _ _ _ ?_)
    have hrem : (s1 % 86400).toNat < (s2 % 86400).toNat := by omega
    by_cases hh : (s1 % 86400).toNat / 3600 < (s2 % 86400).toNat / 3600
    · exact strLess_field_two _ _ (by omega) _ _ (Or.inl hh)
    · refine strLess_field_two _ _ (by omega) _ _ (Or.inr ⟨by omega, strLess_sep _ _ _ ?_⟩)
      by_cases hmi : (s1 % 86400).toNat % 3600 / 60 < (s2 % 86400).toNat % 3600 / 60
      · exact strLess_field_two _ _ (by omega) _ _ (Or.inl hmi)
      · refine strLess_field_two _ _ (by omega) _ _ (Or.inr ⟨by omega, strLess_sep _ _ _ ?_⟩)
        exact strLess_field_two _ _ (by omega) _ _ (Or.inl (by omega))

/-! ## Lemmas: lexical order of the fractional second before a zone sign -/

theorem rdropWhile_cons (p : Byte → Bool) (a : Byte) (l : List Byte) :
    List.rdropWhile p (a :: l) =
      if List.rdropWhile p l = [] then (if p a then [] else [a])
      else a :: List.rdropWhile p l := by
  induction l using List.reverseRecOn generalizing a with
  | nil =>
    by_cases h : p a <;> simp [List.rdropWhile, h]
  | append_singleton l x ih =>
    by_cases hx : p x
    · rw [← List.cons_append, List.rdropWhile_concat_pos _ _ _ hx,
        List.rdropWhile_concat_pos _ _ _ hx]
      exact ih a
    · rw [← List.cons_append, List.rdropWhile_concat_neg _ _ _ hx,
        List.rdropWhile_concat_neg _ _ _ hx]
      simp

/-- After a list of digits of the same length that sorts below it, a list
does not consist of zeros only. -/
theorem rdropWhile_ne_nil_of_strLess :
    ∀ l1 l2 : List Byte, l1.length = l2.length → (∀ x ∈ l1, 48 ≤ x.val) →
      strLess l1 l2 = true → List.rdropWhile (fun x => decide (x = 48)) l2 ≠ [] := by
  intro l1
  induction l1 with
  | nil =>
    intro l2 hlen _ h
    cases l2 with
    | nil => simp [strLess] at h
    | cons b l2 => simp at hlen
  | cons a l1 ih =>
    intro l2 hlen hd h
    cases l2 with
    | nil => simp at hlen
    | cons b l2 =>
      have ha : 48 ≤ a.val := hd a (List.mem_cons_self _ _)
      rw [rdropWhile_cons]
      simp only [strLess] at h
      by_cases hab : a < b
      · have hb : b ≠ 48 := by
          intro hb
          rw [hb, Fin.lt_def] at hab
          have : ((48 : Byte) : Nat) = 48 := rfl
          omega
        split
        · simp [hb]
        · simp
      · by_cases hba : b < a
        · simp [hab, hba] at h
        · simp only [hab, hba, if_false] at h
          have := ih l2 (by simpa using hlen) (fun x hx => hd x (List.mem_cons_of_mem _ hx)) h
          simp [this]

/-- Digits with their trailing zeros removed, followed by a byte below the
digits, sort as the digits do. -/
theorem rdropWhile_strLess (c : Byte) (hc : c.val < 48) :
    ∀ l1 l2 : List Byte, l1.length = l2.length → (∀ x ∈ l1, 48 ≤ x.val) →
      (∀ x ∈ l2, 48 ≤ x.val) → strLess l1 l2 = true → ∀ r1 r2 : GoString,
      strLess (List.rdropWhile (fun x => decide (x = 48)) l1 ++ c :: r1)
        (List.rdropWhile (fun x => decide (x = 48)) l2 ++ c :: r2) = true := by
  intro l1
  induction l1 with
  | nil =>
    intro l2 hlen _ _ h
    cases l2 with
    | nil => simp [strLess] at h
    | cons b l2 => simp at hlen
  | cons a l1 ih =>
    intro l2 hlen hd1 hd2 h r1 r2
    cases l2 with
    | nil => simp at hlen
    | cons b l2 =>
      have ha : 48 ≤ a.val := hd1 a (List.mem_cons_self _ _)
      have hb : 48 ≤ b.val := hd2 b (List.mem_cons_self _ _)
      have hcb : c < b := by rw [Fin.lt_def]; omega
      have hne := rdropWhile_ne_nil_of_strLess (a :: l1) (b :: l2) hlen hd1 h
      have hr : ∃ t, List.rdropWhile (fun x => decide (x = 48)) (b :: l2) = b :: t ∧
          (List.rdropWhile (fun x => decide (x = 48)) l2 ≠ [] →
            t = List.rdropWhile (fun x => decide (x = 48)) l2) := by
        rw [rdropWhile_cons] at hne ⊢
        by_cases hl : List.rdropWhile (fun x => decide (x = 48)) l2 = []
        · rw [if_pos hl] at hne ⊢
          by_cases hb0 : (decide (b = 48)) = true
          · simp [hb0] at hne
          · exact ⟨[], by simp [hb0], fun hn => absurd hl hn⟩
        · rw [if_neg hl]
          exact ⟨_, rfl, fun _ => rfl⟩
      obtain ⟨t, ht, htl⟩ := hr
      rw [ht]
      simp only [strLess] at h
      by_cases hab : a < b
      · rw [rdropWhile_cons]
        split
        · split
          · exact strLess_cons_of _ _ _ _ (Or.inl hcb)
          · exact strLess_cons_of _ _ _ _ (Or.inl hab)
        · exact strLess_cons_of _ _ _ _ (Or.inl hab)
      · by_cases hba : b < a
        · simp [hab, hba] at h
        · simp only [hab, hba, if_false] at h
          have heq : a = b := le_antisymm (not_lt.mp hba) (not_lt.mp hab)
          subst heq
          have hl2 := rdropWhile_ne_nil_of_strLess l1 l2 (by simpa using hlen)
            (fun x hx => hd1 x (List.mem_cons_of_mem _ hx)) h
          have hih := ih l2 (by simpa using hlen)
            (fun x hx => hd1 x (List.mem_cons_of_mem _ hx))
            (fun x hx => hd2 x (List.mem_cons_of_mem _ hx)) h r1 r2
          rw [htl hl2]
          rw [rdropWhile_cons]
          by_cases hl1 : List.rdropWhile (fun x => decide (x = 48)) l1 = []
          · rw [if_pos hl1]
            rw [hl1] at hih
            by_cases ha0 : (decide (a = 48)) = true
            · rw [if_pos ha0]
              exact strLess_cons_of _ _ _ _ (Or.inl hcb)
            · rw [if_neg ha0]
              exact strLess_cons_of _ _ _ _ (Or.inr ⟨rfl, hih⟩)
          · rw [if_neg hl1]
            exact strLess_cons_of _ _ _ _ (Or.inr ⟨rfl, hih⟩)

theorem digitByte_ge (d : Nat) : 48 ≤ (digitByte d).val := by
  rw [digitByte_val]; omega

/-- The nine digits of a fraction of a second sort as the fractions. -/
theorem nineDigits_strLess (x y : Nat) (hxy : x < y) (hy : y < 1000000000) :
    strLess
      [digitByte (x / 100000000), digitByte (x / 10000000), digitByte (x / 1000000),
       digitByte (x / 100000), digitByte (x / 10000), digitByte (x / 1000),
       digitByte (x / 100), digitByte (x / 10), digitByte x]
      [digitByte (y / 100000000), digitByte (y / 10000000), digitByte (y / 1000000),
       digitByte (y / 100000), digitByte (y / 10000), digitByte (y / 1000),
       digitByte (y / 100), digitByte (y / 10), digitByte y] = true := by
  by_cases h8 : x / 100000000 < y / 100000000
  · exact strLess_cons_of _ _ _ _ (Or.inl ((digitByte_lt _ _).mpr (by omega)))
  refine strLess_cons_of _ _ _ _ (Or.inr ⟨digitByte_eq _ _ (by omega), ?_⟩)
  by_cases h7 : x / 10000000 < y / 10000000
  · exact strLess_cons_of _ _ _ _ (Or.inl ((digitByte_lt _ _).mpr (by omega)))
  refine strLess_cons_of _ _ _ _ (Or.inr ⟨digitByte_eq _ _ (by omega), ?_⟩)
  by_cases h6 : x / 1000000 < y / 1000000
  · exact strLess_cons_of _ _ _ _ (Or.inl ((digitByte_lt _ _).mpr (by omega)))
  refine strLess_cons_of _ _ _ _ (Or.inr ⟨digitByte_eq _ _ (by omega), ?_⟩)
  by_cases h5 : x / 100000 < y / 100000
  · exact strLess_cons_of _ _ _ _ (Or.inl ((digitByte_lt _ _).mpr (by omega)))
  refine strLess_cons_of _ _ _ _ (Or.inr ⟨digitByte_eq _ _ (by omega), ?_⟩)
  by_cases h4 : x / 10000 < y / 10000
  · exact strLess_cons_of _ _ _ _ (Or.inl ((digitByte_lt _ _).mpr (by omega)))
  refine strLess_cons_of _ _ _ _ (Or.inr ⟨digitByte_eq _ _ (by omega), ?_⟩)
  by_cases h3 : x / 1000 < y / 1000
  · exact strLess_cons_of _ _ _ _ (Or.inl ((digitByte_lt _ _).mpr (by omega)))
  refine strLess_cons_of _ _ _ _ (Or.inr ⟨digitByte_eq _ _ (by omega), ?_⟩)
  by_cases h2 : x / 100 < y / 100
  · exact strLess_cons_of _ _ _ _ (Or.inl ((digitByte_lt _ _).mpr (by omega)))
  refine strLess_cons_of _ _ _ _ (Or.inr ⟨digitByte_eq _ _ (by omega), ?_⟩)
  by_cases h1 : x / 10 < y / 10
  · exact strLess_cons_of _ _ _ _ (Or.inl ((digitByte_lt _ _).mpr (by omega)))
  refine strLess_cons_of _ _ _ _ (Or.inr ⟨digitByte_eq _ _ (by omega), ?_⟩)
  exact strLess_cons_of _ _ _ _ (Or.inl ((digitByte_lt _ _).mpr (by omega)))

/-- Before a byte below the period, the fractional seconds sort as the
fractions. -/
theorem appendNano_strLess (x y : Nat) (hxy : x < y) (hy : y < 1000000000) (c : Byte)
    (hc : c.val < 46) (r1 r2 : GoString) :
    strLess (appendNano x ++ c :: r1) (appendNano y ++ c :: r2) = true := by
  have hlex := nineDigits_strLess x y hxy hy
  have hd : ∀ z : Nat, ∀ b ∈
      [digitByte (z / 100000000), digitByte (z / 10000000), digitByte (z / 1000000),
       digitByte (z / 100000), digitByte (z / 10000), digitByte (z / 1000),
       digitByte (z / 100), digitByte (z / 10), digitByte z], 48 ≤ b.val := by
    intro z b hb
    simp only [List.mem_cons, List.mem_singleton, List.not_mem_nil, or_false] at hb
    rcases hb with h | h | h | h | h | h | h | h | h <;> (rw [h]; exact digitByte_ge _)
  have hne := rdropWhile_ne_nil_of_strLess _ _ (by rfl) (hd x) hlex
  have hlt := rdropWhile_strLess c (by omega) _ _ (by rfl) (hd x) (hd y) hlex r1 r2
  have hc46 : c < 46 := by rw [Fin.lt_def]; exact hc
  have hy2 : appendNano y = 46 :: List.rdropWhile (fun b => decide (b = 48))
      [digitByte (y / 100000000), digitByte (y / 10000000), digitByte (y / 1000000),
       digitByte (y / 100000), digitByte (y / 10000), digitByte (y / 1000),
       digitByte (y / 100), digitByte (y / 10), digitByte y] := by
    show (if List.rdropWhile (fun b => decide (b = 48)) _ = [] then [] else 46 :: _) = _
    rw [if_neg hne]
    rfl
  have hx2 : appendNano x = if List.rdropWhile (fun b => decide (b = 48))
      [digitByte (x / 100000000), digitByte (x / 10000000), digitByte (x / 1000000),
       digitByte (x / 100000), digitByte (x / 10000), digitByte (x / 1000),
       digitByte (x / 100), digitByte (x / 10), digitByte x] = [] then []
      else 46 :: List.rdropWhile (fun b => decide (b = 48))
      [digitByte (x / 100000000), digitByte (x / 10000000), digitByte (x / 1000000),
       digitByte (x / 100000), digitByte (x / 10000), digitByte (x / 1000),
       digitByte (x / 100), digitByte (x / 10), digitByte x] := rfl
  rw [hy2, hx2]
  split
  · exact strLess_cons_of _ _ _ _ (Or.inl hc46)
  · exact strLess_cons_of _ _ _ _ (Or.inr ⟨rfl, hlt⟩)
/-! ## Lemmas: `New` -/

theorem HasSuffix_slash_snoc (q : GoString) (x : Byte) :
    HasSuffix (q ++ [x]) (lit "/") = decide (x = 47) := by
  have hl : lit "/" = [47] := by decide
  simp [HasSuffix, hl]

theorem HasSuffix_slash_nil : HasSuffix [] (lit "/") = false := by decide

theorem trailingSeps_snoc (q : GoString) (x : Byte) :
    trailingSeps (q ++ [x]) = if x = 47 then trailingSeps q + 1 else 0 := by
  simp only [trailingSeps, List.reverse_append, List.reverse_cons, List.reverse_nil,
    List.nil_append, List.singleton_append, List.takeWhile_cons]
  by_cases h : x = 47
  · simp [h]
  · simp [h]

/-- The path `New` stores: the path given, with a `/` added when it does not
end with one. -/
theorem normalised_path (p : GoString) :
    HasSuffix (if !HasSuffix p (lit "/") then p ++ lit "/" else p) (lit "/") = true ∧
    trailingSeps (if !HasSuffix p (lit "/") then p ++ lit "/" else p) =
      max 1 (trailingSeps p) := by
  have hl : lit "/" = [47] := by decide
  rcases List.eq_nil_or_concat p with rfl | ⟨q, x, rfl⟩
  · decide
  · simp only [List.concat_eq_append]
    rw [HasSuffix_slash_snoc]
    by_cases h : x = 47
    · subst h
      simp only [decide_True, Bool.not_true, Bool.false_eq_true, if_false, HasSuffix_slash_snoc,
        trailingSeps_snoc, if_true, true_and]
      exact (max_eq_right (by omega)).symm
    · have h1 : trailingSeps (q ++ [x] ++ [47]) = 1 := by
        rw [trailingSeps_snoc, if_pos rfl, trailingSeps_snoc, if_neg h]
      have h2 : HasSuffix (q ++ [x] ++ [47]) (lit "/") = true := by
        rw [HasSuffix_slash_snoc]; rfl
      simp only [h, decide_False, Bool.not_false, if_true, hl, h1, trailingSeps_snoc, if_false]
      rw [hl] at h2
      exact ⟨h2, rfl⟩

/-- When `New` returns, both strings were accepted and the fields are set
from them. -/
theorem New_ret (pd : GoString → Int × Option GoString) (path duration size : GoString)
    (lm : LogMan) (h : New pd path duration size = NewOutcome.ret lm) :
    (pd duration).2 = none ∧ Second ≤ (pd duration).1 ∧ (parseFileSize size).2 = none ∧
    lm = { path := if !HasSuffix path (lit "/") then path ++ lit "/" else path,
           duration := (pd duration).1, size := (parseFileSize size).1, lastFileStart := 0,
           layout := RFC3339Nano } := by
  simp only [New] at h
  split at h
  · exact NewOutcome.noConfusion h
  · rename_i h1
    split at h
    · exact NewOutcome.noConfusion h
    · rename_i h2
      split at h
      · exact NewOutcome.noConfusion h
      · rename_i h3
        simp only [NewOutcome.ret.injEq] at h
        exact ⟨by simpa using h1, by omega, h3, h.symm⟩

/-- On a valid configuration `New` returns. -/
theorem New_ok (pd : GoString → Int × Option GoString) (path duration size : GoString)
    (h1 : (pd duration).2 = none) (h2 : Second ≤ (pd duration).1)
    (h3 : (parseFileSize size).2 = none) :
    New pd path duration size =
      NewOutcome.ret
        { path := if !HasSuffix path (lit "/") then path ++ lit "/" else path,
          duration := (pd duration).1, size := (parseFileSize size).1, lastFileStart := 0,
          layout := RFC3339Nano } := by
  have hnot : ¬ ((pd duration).1 < Second) := by omega
  simp only [New, h1, ne_eq, not_true_eq_false, if_false, hnot, h3]

/-! ## Claims about `New` -/

/-- C11, as stated, fails: given `"logs//"`, which already ends with `/`,
`New` stores it as it is, ending with two separators. -/
theorem New_keeps_doubled_separator :
    New sampleParseDuration (lit "logs//") (lit "1s") (lit "10MiB") =
      NewOutcome.ret
        { path := lit "logs//", duration := 1000000000, size := 10485760, lastFileStart := 0,
          layout := RFC3339Nano } ∧
    trailingSeps (lit "logs//") = 2 :=
  ⟨rfl, by decide⟩

/-- C11, amended: for every base path given to `New`, the path stored in the
returned `LogMan` ends with `/`: it is the path given when that ends with
`/`, and the path given followed by one `/` otherwise (so `"/"` for the empty
string).  It ends with as many separators as the path given, and with one
when that ended with none; with exactly one unless the path given ended with
more. -/
theorem New_path_normalised (pd : GoString → Int × Option GoString)
    (path duration size : GoString) (lm : LogMan)
    (h : New pd path duration size = NewOutcome.ret lm) :
    lm.path = (if HasSuffix path (lit "/") then path else path ++ lit "/") ∧
    HasSuffix lm.path (lit "/") = true ∧
    trailingSeps lm.path = max 1 (trailingSeps path) ∧
    (trailingSeps path ≤ 1 → trailingSeps lm.path = 1) := by
  obtain ⟨_, _, _, hlm⟩ := New_ret pd path duration size lm h
  obtain ⟨h1, h2⟩ := normalised_path path
  have hp : lm.path = if !HasSuffix path (lit "/") then path ++ lit "/" else path := by
    rw [hlm]
  refine ⟨?_, by rw [hp]; exact h1, by rw [hp]; exact h2, ?_⟩
  · rw [hp]
    cases HasSuffix path (lit "/") <;> rfl
  · intro hle
    rw [hp, h2]
    exact max_eq_left hle

theorem New_path_normalised_witness :
    New sampleParseDuration [] (lit "1s") (lit "10MiB") =
      NewOutcome.ret
        { path := lit "/", duration := 1000000000, size := 10485760, lastFileStart := 0,
          layout := RFC3339Nano } ∧
    trailingSeps (lit "/") = max 1 (trailingSeps []) :=
  ⟨rfl, (New_path_normalised sampleParseDuration [] (lit "1s") (lit "10MiB")
    { path := lit "/", duration := 1000000000, size := 10485760, lastFileStart := 0,
      layout := RFC3339Nano } rfl).2.2.1⟩

/-- C12: for every parsed duration `d`, with a size string that parses,
`New` produces a `LogMan` if and only if `d` is one second or more, and the
`LogMan` then holds `d` as its interval; for `d` below one second no `LogMan`
is produced: the construction ends with the duration-too-small message and
exit status 1.  So for `"500ms"`. -/
theorem New_duration_gate :
    (∀ (pd : GoString → Int × Option GoString) (path duration size : GoString) (d sz : Int),
      pd duration = (d, none) → parseFileSize size = (sz, none) →
        ((∃ lm : LogMan, New pd path duration size = NewOutcome.ret lm) ↔ Second ≤ d) ∧
        (∀ lm : LogMan, New pd path duration size = NewOutcome.ret lm →
          lm.duration = d ∧ lm.size = sz) ∧
        (d < Second →
          New pd path duration size =
            NewOutcome.exit 1
              (lit "[ERROR] Duration must be greater than, or equal to, 1 second" ++ [10]))) ∧
    New sampleParseDuration (lit "logs") (lit "500ms") (lit "10MiB") =
      NewOutcome.exit 1
        (lit "[ERROR] Duration must be greater than, or equal to, 1 second" ++ [10]) := by
  refine ⟨?_, rfl⟩
  intro pd path duration size d sz hd hs
  refine ⟨⟨?_, ?_⟩, ?_, ?_⟩
  · rintro ⟨lm, hlm⟩
    have := (New_ret pd path duration size lm hlm).2.1
    rw [hd] at this
    exact this
  · intro hge
    exact ⟨_, New_ok pd path duration size (by rw [hd]) (by rw [hd]; exact hge) (by rw [hs])⟩
  · intro lm hlm
    obtain ⟨_, _, _, heq⟩ := New_ret pd path duration size lm hlm
    rw [heq, hd, hs]
    exact ⟨rfl, rfl⟩
  · intro hlt
    simp only [New, hd, ne_eq, not_true_eq_false, if_false, hlt, if_true]

theorem New_duration_gate_witness :
    (∃ lm : LogMan,
        New sampleParseDuration (lit "logs") (lit "1h30m") (lit "10MiB") = NewOutcome.ret lm) ↔
      Second ≤ 5400000000000 :=
  (New_duration_gate.1 sampleParseDuration (lit "logs") (lit "1h30m") (lit "10MiB")
    5400000000000 10485760 rfl (by decide)).1

/-- C13, as stated, fails: on a duration string that does not parse, on a
duration below one second and on a size string with an unknown unit or a
malformed number, `New` ends the process with exit status 1 and hands
nothing back to its caller. -/
theorem New_exits_on_invalid_configuration :
    New sampleParseDuration (lit "logs") (lit "soon") (lit "10MiB") = NewOutcome.exit 1 [] ∧
    New sampleParseDuration (lit "logs") (lit "500ms") (lit "10MiB") =
      NewOutcome.exit 1
        (lit "[ERROR] Duration must be greater than, or equal to, 1 second" ++ [10]) ∧
    New sampleParseDuration (lit "logs") (lit "1s") (lit "5TB") =
      NewOutcome.exit 1
        (lit "[ERROR] Could not parse file size: logman: unknown file size units 'TB'" ++
          [10]) ∧
    New sampleParseDuration (lit "logs") (lit "1s") (lit "1.5MiB") =
      NewOutcome.exit 1
        (lit "[ERROR] Could not parse file size: " ++ couldNotParseMsg [0] ++ [10]) :=
  ⟨rfl, rfl, rfl, rfl⟩

/-- C13, amended: for every invalid configuration (a duration string that
does not parse, a duration below one second, a size string that
`parseFileSize` rejects), `New` does not return to its caller: it ends the
process with exit status 1; it returns, with a `LogMan`, exactly when the
configuration is valid. -/
theorem New_invalid_configuration (pd : GoString → Int × Option GoString)
    (path duration size : GoString) :
    (((pd duration).2 ≠ none ∨ (pd duration).1 < Second ∨ (parseFileSize size).2 ≠ none) →
      ∃ out : GoString, New pd path duration size = NewOutcome.exit 1 out) ∧
    (¬ ((pd duration).2 ≠ none ∨ (pd duration).1 < Second ∨ (parseFileSize size).2 ≠ none) →
      ∃ lm : LogMan, New pd path duration size = NewOutcome.ret lm) := by
  constructor
  · intro h
    simp only [New]
    split
    · exact ⟨_, rfl⟩
    · rename_i h1
      split
      · exact ⟨_, rfl⟩
      · rename_i h2
        split
        · exact ⟨_, rfl⟩
        · rename_i h3
          rcases h with h | h | h
          · exact absurd h h1
          · exact absurd h h2
          · exact absurd h3 h
  · intro h
    simp only [not_or, ne_eq, not_not, not_lt] at h
    obtain ⟨h1, h2, h3⟩ := h
    exact ⟨_, New_ok pd path duration size h1 h2 h3⟩

theorem New_invalid_configuration_witness :
    ∃ out : GoString,
      New sampleParseDuration (lit "logs") (lit "1s") (lit "abcMiB") = NewOutcome.exit 1 out :=
  (New_invalid_configuration sampleParseDuration (lit "logs") (lit "1s") (lit "abcMiB")).1
    (Or.inr (Or.inr (by decide)))

/-! ## Lemmas: the five ways `getLogFileName` returns -/

theorem getLogFileName_cases (fmt : Int → GoString → GoString) (lm : LogMan) (w : World)
    (n : Int) (r : NameResult) (h : getLogFileName fmt lm w n = some r) :
    (lm.lastFileStart = 0 ∧
      r = ⟨fmt (w.clock w.reads) lm.layout ++ lit ".log", none,
        { lm with lastFileStart := w.clock w.reads }, w.after 1 [SysCall.now]⟩) ∨
    (lm.lastFileStart ≠ 0 ∧ lm.duration ≠ 0 ∧
      1 ≤ slotsAt lm w ∧
      r = ⟨fmt (lm.lastFileStart + toInt64 (slotsAt lm w * lm.duration)) lm.layout ++
          lit ".log", none,
        { lm with lastFileStart := lm.lastFileStart + toInt64 (slotsAt lm w * lm.duration) },
        w.after 1 [SysCall.now]⟩) ∨
    (lm.lastFileStart ≠ 0 ∧ lm.duration ≠ 0 ∧
      ¬ (1 ≤ slotsAt lm w) ∧
      statSize w (activeFile fmt lm) = none ∧
      r = ⟨[], some (lit "logman: could not lstat " ++ activeFile fmt lm), lm,
        w.after 1 [SysCall.now, SysCall.lstat (activeFile fmt lm)]⟩) ∨
    (lm.lastFileStart ≠ 0 ∧ lm.duration ≠ 0 ∧
      ¬ (1 ≤ slotsAt lm w) ∧
      (∃ e : Int, statSize w (activeFile fmt lm) = some e ∧ lm.size ≤ toInt64 (e + n)) ∧
      r = ⟨fmt (w.clock (w.reads + 1)) lm.layout ++ lit ".log", none,
        { lm with lastFileStart := w.clock (w.reads + 1) },
        w.after 2 [SysCall.now, SysCall.lstat (activeFile fmt lm), SysCall.now]⟩) ∨
    (lm.lastFileStart ≠ 0 ∧ lm.duration ≠ 0 ∧
      ¬ (1 ≤ slotsAt lm w) ∧
      (∃ e : Int, statSize w (activeFile fmt lm) = some e ∧ ¬ (lm.size ≤ toInt64 (e + n))) ∧
      r = ⟨fmt lm.lastFileStart lm.layout ++ lit ".log", none, lm,
        w.after 1 [SysCall.now, SysCall.lstat (activeFile fmt lm)]⟩) := by
  by_cases h0 : lm.lastFileStart = 0
  · rw [getLogFileName_zero fmt lm w n h0, Option.some.injEq] at h
    exact Or.inl ⟨h0, h.symm⟩
  · by_cases hd : lm.duration = 0
    · rw [getLogFileName_zero_duration fmt lm w n h0 hd] at h
      exact absurd h (by simp)
    · by_cases hs : 1 ≤ slotsAt lm w
      · rw [getLogFileName_interval fmt lm w n h0 hd hs, Option.some.injEq] at h
        exact Or.inr (Or.inl ⟨h0, hd, hs, h.symm⟩)
      · rw [getLogFileName_stat fmt lm w n h0 hd hs] at h
        cases hst : statSize w (activeFile fmt lm) with
        | none =>
          simp only [hst, Option.some.injEq] at h
          exact Or.inr (Or.inr (Or.inl ⟨h0, hd, hs, rfl, h.symm⟩))
        | some e =>
          simp only [hst] at h
          by_cases htr : lm.size ≤ toInt64 (e + n)
          · rw [if_pos htr, Option.some.injEq] at h
            exact Or.inr (Or.inr (Or.inr (Or.inl ⟨h0, hd, hs, ⟨e, rfl, htr⟩, h.symm⟩)))
          · rw [if_neg htr, Option.some.injEq] at h
            exact Or.inr (Or.inr (Or.inr (Or.inr ⟨h0, hd, hs, ⟨e, rfl, htr⟩, h.symm⟩)))

theorem openedPaths_append (a b : List SysCall) :
    openedPaths (a ++ b) = openedPaths a ++ openedPaths b := by
  induction a with
  | nil => rfl
  | cons c cs ih =>
    cases c <;> simp [openedPaths, ih]

/-- `getLogFileName` opens nothing and keeps files and handles. -/
theorem getLogFileName_world (fmt : Int → GoString → GoString) (lm : LogMan) (w : World)
    (n : Int) (r : NameResult) (h : getLogFileName fmt lm w n = some r) :
    openedPaths r.w.calls = openedPaths w.calls ∧ r.w.files = w.files ∧
    r.w.handles = w.handles ∧ r.w.openErr = w.openErr ∧ r.w.statFails = w.statFails ∧
    r.w.space = w.space := by
  rcases getLogFileName_cases fmt lm w n r h with ⟨_, rfl⟩ | ⟨_, _, _, rfl⟩ | ⟨_, _, _, _, rfl⟩ |
    ⟨_, _, _, _, rfl⟩ | ⟨_, _, _, _, rfl⟩ <;>
  simp [World.after, openedPaths_append, openedPaths]

/-- `getLogFileName` changes no field but `lastFileStart`. -/
theorem getLogFileName_frame (fmt : Int → GoString → GoString) (lm : LogMan) (w : World)
    (n : Int) (r : NameResult) (h : getLogFileName fmt lm w n = some r) :
    r.lm.path = lm.path ∧ r.lm.duration = lm.duration ∧ r.lm.size = lm.size ∧
    r.lm.layout = lm.layout := by
  rcases getLogFileName_cases fmt lm w n r h with ⟨_, rfl⟩ | ⟨_, _, _, rfl⟩ | ⟨_, _, _, _, rfl⟩ |
    ⟨_, _, _, _, rfl⟩ | ⟨_, _, _, _, rfl⟩ <;>
  exact ⟨rfl, rfl, rfl, rfl⟩

/-- The name returned without error is the name of the bucket stored. -/
theorem getLogFileName_name (fmt : Int → GoString → GoString) (lm : LogMan) (w : World)
    (n : Int) (r : NameResult) (h : getLogFileName fmt lm w n = some r) (he : r.err = none) :
    r.name = fmt r.lm.lastFileStart r.lm.layout ++ lit ".log" := by
  rcases getLogFileName_cases fmt lm w n r h with ⟨_, rfl⟩ | ⟨_, _, _, rfl⟩ | ⟨_, _, _, _, rfl⟩ |
    ⟨_, _, _, _, rfl⟩ | ⟨_, _, _, _, rfl⟩
  · rfl
  · rfl
  · simp at he
  · rfl
  · rfl

/-- The three ways `Write` returns, after `getLogFileName` has returned. -/
theorem Write_cases (fmt : Int → GoString → GoString) (lm : LogMan) (w : World)
    (p : List Byte) (r' : WriteResult) (h : Write fmt lm w p = some r') :
    ∃ r : NameResult, getLogFileName fmt lm w (p.length : Int) = some r ∧
      ((∃ e, r.err = some e ∧
          r' = ⟨0, some (lit "logman: could not retrieve log file name: " ++ e), r.lm, r.w⟩) ∨
       (∃ reason, r.err = none ∧ r.w.openErr (r.lm.path ++ r.name) = some reason ∧
          r' = ⟨0, some (lit "logman: could not open log file: " ++
                (lit "open " ++ (r.lm.path ++ r.name) ++ lit ": " ++ reason)), r.lm,
              { r.w with calls := r.w.calls ++ [SysCall.openFile (r.lm.path ++ r.name)] }⟩) ∨
       (r.err = none ∧ r.w.openErr (r.lm.path ++ r.name) = none ∧
          r'.lm = r.lm ∧ r'.n = (min p.length r.w.space : Nat) ∧
          r'.w.handles = r.w.handles ++ [r.lm.path ++ r.name] ∧
          r'.w.calls = r.w.calls ++ [SysCall.openFile (r.lm.path ++ r.name),
            SysCall.write (r.lm.path ++ r.name) (min p.length r.w.space)])) := by
  cases hn : getLogFileName fmt lm w (p.length : Int) with
  | none => simp [Write, hn] at h
  | some r =>
    refine ⟨r, rfl, ?_⟩
    simp only [Write, hn] at h
    cases he : r.err with
    | some e =>
      simp only [he, Option.some.injEq] at h
      exact Or.inl ⟨e, rfl, h.symm⟩
    | none =>
      simp only [he] at h
      cases ho : r.w.openErr (r.lm.path ++ r.name) with
      | some reason =>
        simp only [OpenFile, ho, Option.some.injEq] at h
        exact Or.inr (Or.inl ⟨reason, rfl, rfl, h.symm⟩)
      | none =>
        simp only [OpenFile, ho, fileWrite, Option.some.injEq] at h
        subst h
        refine Or.inr (Or.inr ⟨rfl, rfl, rfl, rfl, rfl, ?_⟩)
        simp

theorem strLess_asymm (l1 : GoString) :
    ∀ l2 : GoString, strLess l1 l2 = true → strLess l2 l1 = false := by
  induction l1 with
  | nil => intro l2 _; cases l2 <;> rfl
  | cons a l1 ih =>
    intro l2 h
    cases l2 with
    | nil => simp [strLess] at h
    | cons b l2 =>
      simp only [strLess] at h ⊢
      by_cases hab : a < b
      · have hba : ¬ b < a := not_lt.mpr (le_of_lt hab)
        simp [hba, hab]
      · by_cases hba : b < a
        · simp [hab, hba] at h
        · simp only [hab, hba, if_false] at h ⊢
          exact ih l2 h

theorem strLess_irrefl (l : GoString) : strLess l l = false := by
  cases h : strLess l l with
  | false => rfl
  | true => exact absurd (strLess_asymm l l h) (by rw [h]; decide)

/-- A zone other than `Z` starts with a sign, which is a byte below the
period. -/
theorem formatZone_sign (off : Int) (h : off ≠ 0) :
    ∃ (c : Byte) (rest : GoString), formatZone off = c :: rest ∧ c.val < 46 := by
  unfold formatZone
  rw [if_neg h]
  by_cases hz : Int.tdiv off 60 < 0
  · exact ⟨45, _, by simp only [hz, if_true, List.cons_append, List.nil_append]; rfl, by decide⟩
  · exact ⟨43, _, by simp only [hz, if_false, List.cons_append, List.nil_append]; rfl, by decide⟩

/-- In a location at one offset from UTC, the names of two bucket starts of
local dates in the years 1 to 9999 sort as the starts, when the offset is not
zero or the starts lie in different whole seconds. -/
theorem bucketFileName_strLess (off t1 t2 : Int) (h0 : 0 ≤ t1 / 1000000000 + off)
    (hmax : t2 / 1000000000 + off < 315537897600) (hlt : t1 < t2)
    (hz : off ≠ 0 ∨ t1 / 1000000000 ≠ t2 / 1000000000) :
    strLess (bucketFileName off t1) (bucketFileName off t2) = true := by
  by_cases hsec : t1 / 1000000000 < t2 / 1000000000
  · simp only [bucketFileName, formatRFC3339Nano, List.append_assoc]
    exact formatSeconds_lt _ _ h0 (by omega) hmax _ _
  · have hq : t1 / 1000000000 = t2 / 1000000000 := by omega
    have hoff : off ≠ 0 := by
      rcases hz with h | h
      · exact h
      · exact absurd hq h
    obtain ⟨c, rest, hc, hc46⟩ := formatZone_sign off hoff
    simp only [bucketFileName, formatRFC3339Nano, List.append_assoc, hq, hc, List.cons_append]
    apply strLess_append_left
    exact appendNano_strLess _ _ (by omega) (by omega) c hc46 _ _

/-- The two orders of the names of two bucket starts, from the strict order
of the names of different starts. -/
theorem bucketFileName_strLessEq (off t1 t2 : Int) (hle : t1 ≤ t2)
    (h : t1 < t2 → strLess (bucketFileName off t1) (bucketFileName off t2) = true) :
    strLessEq (bucketFileName off t1) (bucketFileName off t2) = true := by
  by_cases hlt : t1 < t2
  · simp only [strLessEq, strLess_asymm _ _ (h hlt), Bool.not_false]
  · have heq : t1 = t2 := by omega
    simp only [strLessEq, heq, strLess_irrefl, Bool.not_false]

/-- The name `getLogFileName` returns without error, for a `LogMan` that
holds the layout of `New`, when `Format` renders the new bucket start at the
offset `off`. -/
theorem getLogFileName_bucketFileName (fmt : Int → GoString → GoString) (off : Int)
    (lm : LogMan) (w : World) (n : Int) (r : NameResult) (hl : lm.layout = RFC3339Nano)
    (h : getLogFileName fmt lm w n = some r) (he : r.err = none)
    (hf : fmt r.lm.lastFileStart RFC3339Nano = formatRFC3339Nano off r.lm.lastFileStart) :
    r.name = bucketFileName off r.lm.lastFileStart := by
  rw [getLogFileName_name fmt lm w n r h he, (getLogFileName_frame fmt lm w n r h).2.2.2, hl, hf]
  rfl

/-! ## Claims about the file names -/

/-- C9, as stated, fails: in UTC, half a second past midnight comes before
0.55 s past midnight, yet its name `…00.5Z.log` sorts after `…00.55Z.log`;
and in the sample session, whose local zone is UTC, the name of the first
bucket, `…00Z.log`, sorts after the name of the second, `…00.5Z.log`, which
starts half a second later. -/
theorem bucketFileName_not_sorted :
    (63839664000500000000 : Int) ≤ 63839664000550000000 ∧
    bucketFileName 0 63839664000500000000 = lit "2024-01-01T00:00:00.5Z.log" ∧
    bucketFileName 0 63839664000550000000 = lit "2024-01-01T00:00:00.55Z.log" ∧
    strLessEq (bucketFileName 0 63839664000500000000) (bucketFileName 0 63839664000550000000) =
      false ∧
    (getLogFileName sampleFormat sampleLogMan (sampleWorldWithFiles 60) 60).map
        (fun r => r.name) = some (bucketFileName 0 63839664000000000000) ∧
    (getLogFileName sampleFormat sampleAfterFirst.1 sampleAfterFirst.2 60).map
        (fun r => r.name) = some (bucketFileName 0 63839664000500000000) ∧
    strLessEq (bucketFileName 0 63839664000000000000) (bucketFileName 0 63839664000500000000) =
      false := by
  refine ⟨by decide, by decide, by decide, by decide, by decide, by decide, by decide⟩

/-- C9, amended: in a location at any one offset `off` from UTC, for two
bucket starts `t1 <= t2` whose local dates lie between year 1 and the end of
year 9999, the name of `t1` is lexically less than or equal to the name of
`t2` under the layout `New` stores, and less when `t1 < t2`, provided the
offset is not zero, or the starts lie in different whole seconds, or they
are equal.  So for two calls of `getLogFileName` that return without error,
on `LogMan`s that hold that layout, with `Format` rendering both new bucket
starts at the offset `off`: under the same proviso the names returned are in
the order of the bucket starts.  (In UTC the zone is written `Z`, which sorts
after the digits of a fractional second, and the layout drops the trailing
zeros of the fraction; a zone written with a sign sorts before them.) -/
theorem bucketFileName_sorted_chronologically :
    (∀ off t1 t2 : Int, t1 ≤ t2 → 0 ≤ t1 / 1000000000 + off →
      t2 / 1000000000 + off < 315537897600 →
      (off ≠ 0 ∨ t1 / 1000000000 ≠ t2 / 1000000000 ∨ t1 = t2) →
        strLessEq (bucketFileName off t1) (bucketFileName off t2) = true ∧
        (t1 < t2 → strLess (bucketFileName off t1) (bucketFileName off t2) = true)) ∧
    (∀ (fmt : Int → GoString → GoString) (off : Int) (lm1 lm2 : LogMan) (w1 w2 : World)
        (n1 n2 : Int) (r1 r2 : NameResult),
      lm1.layout = RFC3339Nano → lm2.layout = RFC3339Nano →
      getLogFileName fmt lm1 w1 n1 = some r1 → r1.err = none →
      getLogFileName fmt lm2 w2 n2 = some r2 → r2.err = none →
      fmt r1.lm.lastFileStart RFC3339Nano = formatRFC3339Nano off r1.lm.lastFileStart →
      fmt r2.lm.lastFileStart RFC3339Nano = formatRFC3339Nano off r2.lm.lastFileStart →
      r1.lm.lastFileStart ≤ r2.lm.lastFileStart →
      0 ≤ r1.lm.lastFileStart / 1000000000 + off →
      r2.lm.lastFileStart / 1000000000 + off < 315537897600 →
      (off ≠ 0 ∨ r1.lm.lastFileStart / 1000000000 ≠ r2.lm.lastFileStart / 1000000000 ∨
        r1.lm.lastFileStart = r2.lm.lastFileStart) →
        r1.name = bucketFileName off r1.lm.lastFileStart ∧
        r2.name = bucketFileName off r2.lm.lastFileStart ∧
        strLessEq r1.name r2.name = true ∧
        (r1.lm.lastFileStart < r2.lm.lastFileStart → strLess r1.name r2.name = true)) := by
  have key : ∀ off t1 t2 : Int, t1 ≤ t2 → 0 ≤ t1 / 1000000000 + off →
      t2 / 1000000000 + off < 315537897600 →
      (off ≠ 0 ∨ t1 / 1000000000 ≠ t2 / 1000000000 ∨ t1 = t2) →
        strLessEq (bucketFileName off t1) (bucketFileName off t2) = true ∧
        (t1 < t2 → strLess (bucketFileName off t1) (bucketFileName off t2) = true) := by
    intro off t1 t2 hle h0 hmax hz
    have hlt : t1 < t2 → strLess (bucketFileName off t1) (bucketFileName off t2) = true := by
      intro hlt
      refine bucketFileName_strLess off t1 t2 h0 hmax hlt ?_
      rcases hz with h | h | h
      · exact Or.inl h
      · exact Or.inr h
      · omega
    exact ⟨bucketFileName_strLessEq off t1 t2 hle hlt, hlt⟩
  refine ⟨key, ?_⟩
  intro fmt off lm1 lm2 w1 w2 n1 n2 r1 r2 hl1 hl2 h1 he1 h2 he2 hf1 hf2 hle h0 hmax hz
  have hn1 := getLogFileName_bucketFileName fmt off lm1 w1 n1 r1 hl1 h1 he1 hf1
  have hn2 := getLogFileName_bucketFileName fmt off lm2 w2 n2 r2 hl2 h2 he2 hf2
  refine ⟨hn1, hn2, ?_⟩
  rw [hn1, hn2]
  exact key off _ _ hle h0 hmax hz

theorem bucketFileName_sorted_chronologically_witness :
    (strLessEq (bucketFileName 7200 63839664000500000000)
        (bucketFileName 7200 63839664000550000000) = true ∧
      ((63839664000500000000 : Int) < 63839664000550000000 →
        strLess (bucketFileName 7200 63839664000500000000)
          (bucketFileName 7200 63839664000550000000) = true)) ∧
    (strLessEq (bucketFileName 0 63839664000999999999)
        (bucketFileName 0 63839664001000000000) = true ∧
      ((63839664000999999999 : Int) < 63839664001000000000 →
        strLess (bucketFileName 0 63839664000999999999)
          (bucketFileName 0 63839664001000000000) = true)) ∧
    ∃ r1 r2 : NameResult,
      getLogFileName sampleFormatEast sampleLogMan (sampleWorldWithFiles 60) 60 = some r1 ∧
      getLogFileName sampleFormatEast sampleAfterFirst.1 sampleAfterFirst.2 60 = some r2 ∧
      r1.name = lit "2024-01-01T02:00:00+02:00.log" ∧
      r2.name = lit "2024-01-01T02:00:00.5+02:00.log" ∧
      strLessEq r1.name r2.name = true ∧
      (r1.lm.lastFileStart < r2.lm.lastFileStart → strLess r1.name r2.name = true) := by
  refine ⟨bucketFileName_sorted_chronologically.1 7200 63839664000500000000
      63839664000550000000 (by decide) (by decide) (by decide) (Or.inl (by decide)),
    bucketFileName_sorted_chronologically.1 0 63839664000999999999
      63839664001000000000 (by decide) (by decide) (by decide) (Or.inr (Or.inl (by decide))), ?_⟩
  have h := bucketFileName_sorted_chronologically.2 sampleFormatEast 7200 sampleLogMan
    sampleAfterFirst.1 (sampleWorldWithFiles 60) sampleAfterFirst.2 60 60 _ _
    rfl rfl rfl rfl rfl rfl rfl rfl (by decide) (by decide) (by decide) (Or.inl (by decide))
  exact ⟨_, _, rfl, rfl, by decide, by decide, h.2.2⟩

/-! ## Claims about the order of the triggers and the frame -/

/-- C15: whenever `getLogFileName` returns without error, whichever branch
it took, the name returned is `format(lastFileStart, layout) + ".log"` for
the `lastFileStart` left by the call; `Write` then makes one `OpenFile` call,
on `path` followed by that name, and makes none when `getLogFileName` fails.
The file of a write is thus determined by the bucket start after the call. -/
theorem name_of_bucket_start :
    (∀ (fmt : Int → GoString → GoString) (lm : LogMan) (w : World) (n : Int) (r : NameResult),
      getLogFileName fmt lm w n = some r → r.err = none →
        r.name = fmt r.lm.lastFileStart r.lm.layout ++ lit ".log") ∧
    (∀ (fmt : Int → GoString → GoString) (lm : LogMan) (w : World) (p : List Byte)
      (r : NameResult) (r' : WriteResult),
      getLogFileName fmt lm w (p.length : Int) = some r → Write fmt lm w p = some r' →
        r'.lm = r.lm ∧
        (r.err = none →
          openedPaths r'.w.calls = openedPaths w.calls ++ [activeFile fmt r'.lm]) ∧
        (r.err ≠ none → openedPaths r'.w.calls = openedPaths w.calls)) := by
  constructor
  · intro fmt lm w n r h he
    exact getLogFileName_name fmt lm w n r h he
  · intro fmt lm w p r r' hn hw
    obtain ⟨r0, hn0, hcases⟩ := Write_cases fmt lm w p r' hw
    rw [hn, Option.some.injEq] at hn0
    subst hn0
    obtain ⟨hop, _⟩ := getLogFileName_world fmt lm w _ r hn
    rcases hcases with ⟨e, he, rfl⟩ | ⟨reason, he, _, rfl⟩ | ⟨he, _, hlm, _, _, hcalls⟩
    · refine ⟨rfl, fun h => ?_, fun _ => hop⟩
      rw [he] at h
      exact absurd h (by simp)
    · refine ⟨rfl, fun _ => ?_, fun h => absurd he h⟩
      have hname := getLogFileName_name fmt lm w _ r hn he
      simp only [openedPaths_append, openedPaths, hop, activeFile, hname, List.append_assoc]
    · refine ⟨hlm, fun _ => ?_, fun h => absurd he h⟩
      have hname := getLogFileName_name fmt lm w _ r hn he
      rw [hcalls, hlm]
      simp only [openedPaths_append, openedPaths, hop, activeFile, hname, List.append_assoc]

theorem name_of_bucket_start_witness :
    sampleAfterSecond.1.lastFileStart = 63839664000500000000 ∧
    lit "2024-01-01T00:00:00.5Z.log" =
      sampleFormat sampleAfterSecond.1.lastFileStart sampleAfterSecond.1.layout ++ lit ".log" :=
  ⟨rfl, name_of_bucket_start.1 sampleFormat sampleAfterFirst.1 sampleAfterFirst.2 60
    ⟨lit "2024-01-01T00:00:00.5Z.log", none, sampleAfterSecond.1, sampleAfterSecond.2⟩ rfl rfl⟩

/-- C17: a call of `getLogFileName` or of `Write`, whatever it returns,
leaves `duration`, `size`, `path` and `layout` as they were, and so does
every run of calls; only `lastFileStart` may change. -/
theorem configuration_frame :
    (∀ (fmt : Int → GoString → GoString) (lm : LogMan) (w : World) (n : Int) (r : NameResult),
      getLogFileName fmt lm w n = some r →
        r.lm.path = lm.path ∧ r.lm.duration = lm.duration ∧ r.lm.size = lm.size ∧
        r.lm.layout = lm.layout) ∧
    (∀ (fmt : Int → GoString → GoString) (lm : LogMan) (w : World) (p : List Byte)
      (r' : WriteResult),
      Write fmt lm w p = some r' →
        r'.lm.path = lm.path ∧ r'.lm.duration = lm.duration ∧ r'.lm.size = lm.size ∧
        r'.lm.layout = lm.layout) ∧
    (∀ (fmt : Int → GoString → GoString) (cs : List Call) (s s1 : LogMan × World),
      run fmt s cs = some s1 →
        s1.1.path = s.1.path ∧ s1.1.duration = s.1.duration ∧ s1.1.size = s.1.size ∧
        s1.1.layout = s.1.layout) := by
  have hname := getLogFileName_frame
  have hwrite : ∀ (fmt : Int → GoString → GoString) (lm : LogMan) (w : World) (p : List Byte)
      (r' : WriteResult), Write fmt lm w p = some r' →
        r'.lm.path = lm.path ∧ r'.lm.duration = lm.duration ∧ r'.lm.size = lm.size ∧
        r'.lm.layout = lm.layout := by
    intro fmt lm w p r' hw
    obtain ⟨r, hn, hlm, _, _⟩ := Write_clock fmt lm w p r' hw
    rw [hlm]
    exact hname fmt lm w _ r hn
  refine ⟨hname, hwrite, ?_⟩
  intro fmt cs
  induction cs with
  | nil =>
    intro s s1 h
    simp only [run, Option.some.injEq] at h
    subst h
    exact ⟨rfl, rfl, rfl, rfl⟩
  | cons c cs ih =>
    intro s s1 h
    simp only [run] at h
    cases hst : step fmt s c with
    | none => simp [hst] at h
    | some s' =>
      simp only [hst] at h
      obtain ⟨h1, h2, h3, h4⟩ := ih s' s1 h
      have hstep : s'.1.path = s.1.path ∧ s'.1.duration = s.1.duration ∧
          s'.1.size = s.1.size ∧ s'.1.layout = s.1.layout := by
        cases c with
        | name n =>
          simp only [step, Option.map_eq_some'] at hst
          obtain ⟨r, hr, rfl⟩ := hst
          exact hname fmt s.1 s.2 n r hr
        | write p =>
          simp only [step, Option.map_eq_some'] at hst
          obtain ⟨r, hr, rfl⟩ := hst
          exact hwrite fmt s.1 s.2 p r hr
        | others files statFails openErr space =>
          simp only [step, Option.some.injEq] at hst
          subst hst
          exact ⟨rfl, rfl, rfl, rfl⟩
      exact ⟨h1.trans hstep.1, h2.trans hstep.2.1, h3.trans hstep.2.2.1, h4.trans hstep.2.2.2⟩

theorem configuration_frame_witness :
    sampleAfterSecond.1.path = sampleAfterFirst.1.path ∧
    sampleAfterSecond.1.duration = sampleAfterFirst.1.duration ∧
    sampleAfterSecond.1.size = sampleAfterFirst.1.size ∧
    sampleAfterSecond.1.layout = sampleAfterFirst.1.layout :=
  configuration_frame.1 sampleFormat sampleAfterFirst.1 sampleAfterFirst.2 60
    ⟨lit "2024-01-01T00:00:00.5Z.log", none, sampleAfterSecond.1, sampleAfterSecond.2⟩ rfl

/-! ## Claims about the interval arithmetic and the file handle -/

/-- C18, as stated, fails: with the bucket start at 1700-01-01T00:00:00Z, an
interval of one second and the clock at 2024-01-01T00:00:00Z at every
reading, the interval trigger fires and leaves the bucket start at
1992-04-11T23:47:16Z, which is 1001031164 s before the clock reading, not
less than one interval; a call that follows at the same clock reading fires
the interval trigger again, moves the bucket start to the clock reading and
makes no stat. -/
theorem interval_trigger_fires_again :
    (sampleActive 53615260800000000000).lastFileStart + (sampleActive 53615260800000000000).duration
      ≤ sampleWorldAt2024.clock sampleWorldAt2024.reads ∧
    (getLogFileName sampleFormat (sampleActive 53615260800000000000) sampleWorldAt2024 60).map
        (fun r => (r.lm.lastFileStart, r.w.reads, r.w.calls, r.err)) =
      some (62838632836000000000, 1, [SysCall.now], none) ∧
    ¬ (sampleWorldAt2024.clock sampleWorldAt2024.reads - 62838632836000000000 <
        (sampleActive 53615260800000000000).duration) ∧
    sampleWorldAt2024.clock 1 = sampleWorldAt2024.clock 0 ∧
    ((getLogFileName sampleFormat (sampleActive 53615260800000000000) sampleWorldAt2024
        60).bind (fun r => getLogFileName sampleFormat r.lm r.w 60)).map
        (fun r => (r.lm.lastFileStart, r.w.reads, r.w.calls, r.err)) =
      some (63839664000000000000, 2, [SysCall.now, SysCall.now], none) := by
  refine ⟨by decide, by decide, by decide, by decide, by decide⟩

/-- C18, amended: when the interval trigger fires, in an active state with a
positive interval `d` and a clock reading `now >= s + d` such that the
elapsed time `now - s` is at most the largest `Duration` (`2 ^ 63 - 1` ns),
the new bucket start `s'` satisfies `s' <= now` and `now - s' < d`, and
`s' - s` is `k * d` for an integer `k >= 1`; so at the same clock reading the
count of whole intervals is below one, and a call that follows at that
reading goes on to the stat of the new bucket's file and leaves `s'` or takes
the size trigger. -/
theorem interval_trigger_settles (fmt : Int → GoString → GoString) (lm : LogMan) (w : World)
    (n : Int) (h0 : lm.lastFileStart ≠ 0) (hd : 0 < lm.duration)
    (hel : lm.duration ≤ w.clock w.reads - lm.lastFileStart)
    (hmax : w.clock w.reads - lm.lastFileStart ≤ maxDuration) :
    ∃ r : NameResult, getLogFileName fmt lm w n = some r ∧
      r.lm.lastFileStart ≤ w.clock w.reads ∧
      w.clock w.reads - r.lm.lastFileStart < lm.duration ∧
      (∃ k : Int, 1 ≤ k ∧ r.lm.lastFileStart - lm.lastFileStart = k * lm.duration) ∧
      (∀ (w' : World) (n' : Int), w'.clock w'.reads = w.clock w.reads →
        r.lm.lastFileStart ≠ 0 →
          ¬ (1 ≤ slotsAt r.lm w') ∧
          ∃ r2 : NameResult, getLogFileName fmt r.lm w' n' = some r2 ∧
            r2.w.calls.take (w'.calls.length + 2) =
              w'.calls ++ [SysCall.now, SysCall.lstat (activeFile fmt r.lm)] ∧
            (r2.lm.lastFileStart = r.lm.lastFileStart ∨
              r2.lm.lastFileStart = w'.clock (w'.reads + 1))) := by
  have hsub : Sub (w.clock w.reads) lm.lastFileStart = w.clock w.reads - lm.lastFileStart :=
    Sub_of_fits _ _ (by omega) hmax
  obtain ⟨hsl, hk, hprod, _, _⟩ := slotsAt_ge_one lm w hd (by omega) hel
  have hstep := getLogFileName_interval fmt lm w n h0 (by omega) (by rw [hsl]; exact hk)
  rw [hprod] at hstep
  rw [hsub] at hk hstep
  have hle := Int.ediv_mul_le (w.clock w.reads - lm.lastFileStart) (show lm.duration ≠ 0 by omega)
  have hlt := Int.lt_ediv_add_one_mul_self (w.clock w.reads - lm.lastFileStart) hd
  have hexp : ((w.clock w.reads - lm.lastFileStart) / lm.duration + 1) * lm.duration =
      (w.clock w.reads - lm.lastFileStart) / lm.duration * lm.duration + lm.duration := by ring
  rw [hexp] at hlt
  refine ⟨_, hstep, by simp only; omega, by simp only; omega,
    ⟨_, hk, by simp only; omega⟩, ?_⟩
  intro w' n' hclock hne
  have hnot' : ¬ (1 ≤ slotsAt { lm with lastFileStart := lm.lastFileStart +
      (w.clock w.reads - lm.lastFileStart) / lm.duration * lm.duration } w') :=
    slotsAt_lt_one _ w' hd (by rw [hclock]; simp only; omega)
  refine ⟨hnot', ?_⟩
  have hbr := getLogFileName_stat fmt
    { lm with lastFileStart := lm.lastFileStart +
        (w.clock w.reads - lm.lastFileStart) / lm.duration * lm.duration }
    w' n' hne (show lm.duration ≠ 0 by omega) hnot'
  cases hst : statSize w' (activeFile fmt { lm with lastFileStart := lm.lastFileStart +
      (w.clock w.reads - lm.lastFileStart) / lm.duration * lm.duration }) with
  | none =>
    rw [hst] at hbr
    exact ⟨_, hbr, by simp [World.after], Or.inl rfl⟩
  | some e =>
    rw [hst] at hbr
    simp only at hbr
    split at hbr
    · refine ⟨_, hbr, ?_, Or.inr rfl⟩
      simp only [World.after]
      rw [List.take_append]
      rfl
    · exact ⟨_, hbr, by simp [World.after], Or.inl rfl⟩

theorem interval_trigger_settles_witness :
    ∃ r : NameResult,
      getLogFileName sampleFormat (sampleActive 63839664000000000000)
          (sampleWorld.after 11 []) 60 = some r ∧
        r.lm.lastFileStart ≤ (sampleWorld.after 11 []).clock (sampleWorld.after 11 []).reads ∧
        (sampleWorld.after 11 []).clock (sampleWorld.after 11 []).reads - r.lm.lastFileStart <
          (sampleActive 63839664000000000000).duration :=
  match interval_trigger_settles sampleFormat (sampleActive 63839664000000000000)
      (sampleWorld.after 11 []) 60 (by decide) (by decide) (by decide) (by decide) with
  | ⟨r, h1, h2, h3, _⟩ => ⟨r, h1, h2, h3⟩

/-- What `Write` does to the open handles: it leaves them as they are when
nothing is opened, and otherwise adds the handle it opened. -/
theorem Write_handles (fmt : Int → GoString → GoString) (lm : LogMan) (w : World)
    (p : List Byte) (r' : WriteResult) (h : Write fmt lm w p = some r') :
    r'.w.handles = w.handles ∨ r'.w.handles = w.handles ++ [activeFile fmt r'.lm] := by
  obtain ⟨r, hn, hcases⟩ := Write_cases fmt lm w p r' h
  obtain ⟨_, _, hh, _⟩ := getLogFileName_world fmt lm w _ r hn
  rcases hcases with ⟨e, _, rfl⟩ | ⟨reason, _, _, rfl⟩ | ⟨he, _, hlm, _, hhandles, _⟩
  · exact Or.inl hh
  · exact Or.inl hh
  · right
    rw [hhandles, hh, hlm, activeFile, getLogFileName_name fmt lm w _ r hn he, List.append_assoc]

/-- C16 does not hold of the code: a first `Write` of two bytes into an empty
directory succeeds and returns with the handle it opened still open; the
source has no call of `Close`. -/
theorem Write_leaves_handle_open :
    (Write sampleFormat sampleLogMan sampleWorld [104, 105]).map
        (fun r => (r.n, r.err, r.w.handles)) =
      some (2, none, [lit "logs/2024-01-01T00:00:00Z.log"]) ∧
    sampleWorld.handles = [] ∧
    (∀ r' : WriteResult, Write sampleFormat sampleLogMan sampleWorld [104, 105] = some r' →
      ¬ sameHandles r'.w sampleWorld) := by
  have h1 : (Write sampleFormat sampleLogMan sampleWorld [104, 105]).map
      (fun r => (r.n, r.err, r.w.handles)) =
        some (2, none, [lit "logs/2024-01-01T00:00:00Z.log"]) := by decide
  refine ⟨h1, rfl, ?_⟩
  intro r' hr'
  rw [hr'] at h1
  simp only [Option.map_some', Option.some.injEq, Prod.mk.injEq] at h1
  intro hsame
  have : r'.w.handles = [] := hsame
  rw [this] at h1
  exact absurd h1.2.2 (by decide)

/-! ## Lemmas: signed sizes and failed opens -/

/-- After a non-empty run of bytes that are not letters, the trailing letters
are exactly the letters appended. -/
theorem trailingLetters_nonletters_append (pre u : GoString) (hne : pre ≠ [])
    (hp : ∀ c ∈ pre, isLetter c = false) (hu : ∀ c ∈ u, isLetter c = true) :
    trailingLetters (pre ++ u) = u := by
  unfold trailingLetters
  rw [List.reverse_append, takeWhile_append_all _ _ _ (by simpa using hu)]
  have hlast : pre.reverse.takeWhile isLetter = [] := by
    cases hr : pre.reverse with
    | nil => exact absurd (List.reverse_eq_nil_iff.mp hr) hne
    | cons x xs =>
      have hx : x ∈ pre := by
        have : x ∈ pre.reverse := by rw [hr]; exact List.mem_cons_self _ _
        simpa using this
      simp [List.takeWhile_cons, hp x hx]
  rw [hlast]
  simp

/-- A sign followed by digits parses to the signed value when in range. -/
theorem ParseInt_signed (c : Byte) (ds : GoString) (hc : c = 43 ∨ c = 45) (hne : ds ≠ [])
    (hd : ∀ x ∈ ds, isDigit x = true)
    (hlo : -(2 : Int) ^ 63 ≤ (if c = 45 then -(digitsVal ds : Int) else (digitsVal ds : Int)))
    (hhi : (if c = 45 then -(digitsVal ds : Int) else (digitsVal ds : Int)) < 2 ^ 63) :
    ParseInt (c :: ds) =
      ((if c = 45 then -(digitsVal ds : Int) else (digitsVal ds : Int)), none) := by
  apply ParseInt_ok _ _ _ hlo hhi
  rw [decimalValue_cons]
  rcases hc with rfl | rfl
  · simp only [if_true]
    rw [if_pos ⟨hne, hd⟩]
  · have h : ¬ ((45 : Byte) = 43) := by decide
    simp only [h, if_false, if_true]
    rw [if_pos ⟨hne, hd⟩]

/-- A sign, digits and a unit: the signed value times the multiplier, when
the product fits. -/
theorem parseFileSize_signed (c : Byte) (ds u : GoString) (k : Nat) (hc : c = 43 ∨ c = 45)
    (hne : ds ≠ []) (hd : ∀ x ∈ ds, isDigit x = true) (hu : (u, k) ∈ unitTable)
    (hfit : if c = 45 then digitsVal ds * 1024 ^ k ≤ 2 ^ 63 else digitsVal ds * 1024 ^ k < 2 ^ 63) :
    parseFileSize (c :: ds ++ u) =
      ((if c = 45 then -((digitsVal ds * 1024 ^ k : Nat) : Int)
        else ((digitsVal ds * 1024 ^ k : Nat) : Int)), none) := by
  have hsign : isLetter c = false := by
    rcases hc with rfl | rfl <;> decide
  have hpre : ∀ x ∈ c :: ds, isLetter x = false := by
    intro x hx
    rcases List.mem_cons.mp hx with rfl | hx
    · exact hsign
    · exact isDigit_not_letter x (hd x hx)
  have htl : trailingLetters (c :: ds ++ u) = u :=
    trailingLetters_nonletters_append (c :: ds) u (by simp) hpre (unitTable_letters u k hu)
  have hnum : numericPart (c :: ds ++ u) = c :: ds := by
    unfold numericPart
    rw [htl, List.length_append, Nat.add_sub_cancel]
    exact List.take_left' rfl
  have h1024 : 0 < 1024 ^ k := by positivity
  have hval : digitsVal ds ≤ digitsVal ds * 1024 ^ k := Nat.le_mul_of_pos_right _ h1024
  have hprod : ((1024 ^ k : Nat) : Int) * (digitsVal ds : Int) =
      ((digitsVal ds * 1024 ^ k : Nat) : Int) := by
    push_cast; ring
  generalize digitsVal ds * 1024 ^ k = m at hfit hval hprod
  by_cases h45 : c = 45
  · simp only [h45, if_true] at hfit ⊢
    have hparse := ParseInt_signed 45 ds (Or.inr rfl) hne hd
      (by simp only [if_true]; omega) (by simp only [if_true]; omega)
    simp only [if_true] at hparse
    rw [h45] at htl hnum
    rw [parseFileSize_eq, htl, unitMult_table u k hu, hnum, hparse]
    simp only [ne_eq, not_true_eq_false, if_false]
    rw [mul_neg, hprod]
    simp only [toInt64, Prod.mk.injEq, and_true]
    omega
  · simp only [h45, if_false] at hfit ⊢
    have hparse := ParseInt_signed c ds hc hne hd
      (by simp only [h45, if_false]; omega) (by simp only [h45, if_false]; omega)
    simp only [h45, if_false] at hparse
    rw [parseFileSize_eq, htl, unitMult_table u k hu, hnum, hparse]
    simp only [ne_eq, not_true_eq_false, if_false]
    rw [hprod]
    simp only [toInt64, Prod.mk.injEq, and_true]
    omega

theorem statSize_nonneg (w : World) (f : GoString) (e : Int) (h : statSize w f = some e) :
    0 ≤ e := by
  simp only [statSize] at h
  split at h
  · simp at h
  · split at h
    · simp at h
    · simp only [Option.some.injEq] at h
      omega

/-! ## Claims about signed sizes and failed opens -/

/-- C19, as stated, fails: not every signed decimal is accepted or keeps its
sign.  `"+9223372036854775808B"` and `"-9223372036854775809B"` are rejected
as malformed numbers, and `"-9007199254740993KiB"` returns a positive size,
the 64-bit product having wrapped. -/
theorem parseFileSize_signed_out_of_range :
    parseFileSize (lit "+9223372036854775808B") =
      (0, some (couldNotParseMsg [0xEF, 0xBF, 0xBD])) ∧
    parseFileSize (lit "-9223372036854775809B") =
      (0, some (couldNotParseMsg [0xEF, 0xBF, 0xBD])) ∧
    parseFileSize (lit "-9007199254740993KiB") = (9223372036854774784, none) := by
  refine ⟨by decide, by decide, by decide⟩

/-- C19, amended: for every run of decimal digits with value `n` and every
recognised unit with multiplier `m`, `"-"`, the digits and the unit parse to
`-(n * m)` with no error when `n * m <= 2 ^ 63`, and `"+"`, the digits and the
unit parse to `n * m` when `n * m < 2 ^ 63`; `"0B"` parses to 0.  With a
`maxBytes <= 0`, every `Write` in an active state in which less than one
(positive) interval has elapsed and the stat of the active file succeeds with
a size `e` such that `e` plus the payload length fits in a signed 64-bit
integer takes the size trigger and starts the bucket of the clock reading. -/
theorem parseFileSize_signed_sizes :
    (∀ (ds u : GoString) (k : Nat), ds ≠ [] → (∀ c ∈ ds, isDigit c = true) →
      (u, k) ∈ unitTable → digitsVal ds * 1024 ^ k ≤ 2 ^ 63 →
        parseFileSize (45 :: ds ++ u) = (-((digitsVal ds * 1024 ^ k : Nat) : Int), none)) ∧
    (∀ (ds u : GoString) (k : Nat), ds ≠ [] → (∀ c ∈ ds, isDigit c = true) →
      (u, k) ∈ unitTable → digitsVal ds * 1024 ^ k < 2 ^ 63 →
        parseFileSize (43 :: ds ++ u) = (((digitsVal ds * 1024 ^ k : Nat) : Int), none)) ∧
    parseFileSize (lit "0B") = (0, none) ∧
    parseFileSize (lit "-3KiB") = (-3072, none) ∧
    (∀ (fmt : Int → GoString → GoString) (lm : LogMan) (w : World) (p : List Byte) (e : Int),
      lm.size ≤ 0 → lm.lastFileStart ≠ 0 → 0 < lm.duration →
      w.clock w.reads - lm.lastFileStart < lm.duration →
      statSize w (activeFile fmt lm) = some e → e + (p.length : Int) < 2 ^ 63 →
        (∃ r : NameResult, getLogFileName fmt lm w (p.length : Int) = some r ∧
          r.err = none ∧ r.lm.lastFileStart = w.clock (w.reads + 1) ∧
          r.name = fmt (w.clock (w.reads + 1)) lm.layout ++ lit ".log") ∧
        (∃ r' : WriteResult, Write fmt lm w p = some r' ∧
          r'.lm.lastFileStart = w.clock (w.reads + 1))) := by
  refine ⟨?_, ?_, by decide, by decide, ?_⟩
  · intro ds u k hne hd hu hfit
    have h := parseFileSize_signed 45 ds u k (Or.inr rfl) hne hd hu (by simpa using hfit)
    simpa using h
  · intro ds u k hne hd hu hfit
    have h43 : ¬ ((43 : Byte) = 45) := by decide
    have h := parseFileSize_signed 43 ds u k (Or.inl rfl) hne hd hu
      (by simp only [h43, if_false]; exact hfit)
    simpa [h43] using h
  · intro fmt lm w p e hsz h0 hd hel hst hfit
    have he := statSize_nonneg w _ e hst
    have hbr := getLogFileName_stat fmt lm w (p.length : Int) h0 (by omega)
      (slotsAt_lt_one _ _ hd hel)
    rw [hst] at hbr
    simp only at hbr
    rw [toInt64_of_fits _ (by omega) hfit, if_pos (by omega)] at hbr
    refine ⟨⟨_, hbr, rfl, rfl, rfl⟩, ?_⟩
    obtain ⟨r', hw, hlm⟩ := Write_of_name fmt lm w p _ hbr
    exact ⟨r', hw, by rw [hlm]⟩

theorem parseFileSize_signed_sizes_witness :
    parseFileSize (45 :: lit "8589934592" ++ GiB) =
      (-((digitsVal (lit "8589934592") * 1024 ^ 3 : Nat) : Int), none) :=
  parseFileSize_signed_sizes.1 (lit "8589934592") GiB 3 (by decide) (by decide) (by decide)
    (by decide)

/-- A `Write` in an active state, before one interval has elapsed, while the
file of the bucket is absent: the stat fails and nothing else is done. -/
theorem Write_file_absent (fmt : Int → GoString → GoString) (lm : LogMan) (w : World)
    (p : List Byte) (h0 : lm.lastFileStart ≠ 0) (hd : 0 < lm.duration)
    (hel : w.clock w.reads - lm.lastFileStart < lm.duration)
    (hab : w.files (activeFile fmt lm) = none) :
    Write fmt lm w p =
      some ⟨0, some (lit "logman: could not retrieve log file name: " ++
            (lit "logman: could not lstat " ++ activeFile fmt lm)), lm,
        w.after 1 [SysCall.now, SysCall.lstat (activeFile fmt lm)]⟩ := by
  have hst : statSize w (activeFile fmt lm) = none := by
    simp only [statSize, hab]
    split <;> rfl
  have hbr : getLogFileName fmt lm w (p.length : Int) =
      some ⟨[], some (lit "logman: could not lstat " ++ activeFile fmt lm), lm,
        w.after 1 [SysCall.now, SysCall.lstat (activeFile fmt lm)]⟩ := by
    rw [getLogFileName_stat fmt lm w _ h0 (by omega) (slotsAt_lt_one _ _ hd hel), hst]
  rw [Write_of_name_err fmt lm w p _ _ hbr rfl]

/-- Retries while the file is absent and the interval has not elapsed leave
everything but the clock and the record of calls as it was. -/
theorem retries_file_absent (fmt : Int → GoString → GoString) (lm : LogMan)
    (h0 : lm.lastFileStart ≠ 0) (hd : 0 < lm.duration) (ps : List (List Byte)) :
    ∀ w : World,
      (∀ i : Nat, i < ps.length → w.clock (w.reads + i) - lm.lastFileStart < lm.duration) →
      w.files (activeFile fmt lm) = none →
        ∃ w' : World, run fmt (lm, w) (ps.map Call.write) = some (lm, w') ∧
          w'.files = w.files ∧ w'.handles = w.handles ∧ w'.clock = w.clock ∧
          w'.reads = w.reads + ps.length ∧ openedPaths w'.calls = openedPaths w.calls := by
  induction ps with
  | nil =>
    intro w _ _
    exact ⟨w, rfl, rfl, rfl, rfl, rfl, rfl⟩
  | cons p ps ih =>
    intro w hel hab
    have hw := Write_file_absent fmt lm w p h0 hd (by simpa using hel 0 (by simp)) hab
    obtain ⟨w', hrun, hf, hh, hc, hr, ho⟩ :=
      ih (w.after 1 [SysCall.now, SysCall.lstat (activeFile fmt lm)])
        (by
          intro i hi
          have := hel (i + 1) (by simp only [List.length_cons]; omega)
          simp only [World.after]
          rw [show w.reads + 1 + i = w.reads + (i + 1) by omega]
          exact this)
        hab
    refine ⟨w', ?_, hf, hh, hc, ?_, ?_⟩
    · simp only [List.map_cons, run, step, hw, Option.map_some']
      exact hrun
    · rw [hr]
      simp only [World.after, List.length_cons]
      omega
    · rw [ho]
      simp [World.after, openedPaths_append, openedPaths]

/-- C20, as stated, fails: a first `Write`, whose target file exists and
cannot be opened, returns the open error with `lastFileStart` advanced to the
new bucket, and the file of that bucket exists. -/
theorem Write_open_failure_file_present :
    sampleLogMan.lastFileStart = 0 ∧
    (Write sampleFormat sampleLogMan sampleWorldDenied [104, 105]).map
        (fun r => (r.n, r.err, r.lm.lastFileStart,
          r.w.files (lit "logs/2024-01-01T00:00:00Z.log"))) =
      some (0,
        some (lit ("logman: could not open log file: " ++
          "open logs/2024-01-01T00:00:00Z.log: permission denied")),
        63839664000000000000, some []) := by
  refine ⟨rfl, by decide⟩

/-- C20, amended: when `getLogFileName` has chosen the bucket and `OpenFile`
then refuses its file, `Write` returns count 0 and the open error with
`lastFileStart` already at the bucket chosen, and the failed open creates
nothing: files and handles are as before, so the file is absent after the
call if it was absent before.  From then on, with the bucket start not zero
and a positive interval, every `Write` made before a full interval has
elapsed since that start, while the file is absent, fails with the stat
error, leaves the `LogMan` as it is and writes nothing; and so does any
number of retries in a row. -/
theorem Write_open_failure :
    (∀ (fmt : Int → GoString → GoString) (lm : LogMan) (w : World) (p : List Byte)
      (r : NameResult) (reason : GoString),
      getLogFileName fmt lm w (p.length : Int) = some r → r.err = none →
      w.openErr (activeFile fmt r.lm) = some reason →
        ∃ r' : WriteResult, Write fmt lm w p = some r' ∧ r'.n = 0 ∧
          r'.err = some (lit "logman: could not open log file: " ++
            (lit "open " ++ activeFile fmt r.lm ++ lit ": " ++ reason)) ∧
          r'.lm = r.lm ∧ r'.w.files = w.files ∧ r'.w.handles = w.handles) ∧
    (∀ (fmt : Int → GoString → GoString) (lm : LogMan) (w : World) (p : List Byte),
      lm.lastFileStart ≠ 0 → 0 < lm.duration →
      w.clock w.reads - lm.lastFileStart < lm.duration →
      w.files (activeFile fmt lm) = none →
        Write fmt lm w p =
          some ⟨0, some (lit "logman: could not retrieve log file name: " ++
                (lit "logman: could not lstat " ++ activeFile fmt lm)), lm,
            w.after 1 [SysCall.now, SysCall.lstat (activeFile fmt lm)]⟩) ∧
    (∀ (fmt : Int → GoString → GoString) (lm : LogMan) (w : World) (ps : List (List Byte)),
      lm.lastFileStart ≠ 0 → 0 < lm.duration →
      (∀ i : Nat, i < ps.length → w.clock (w.reads + i) - lm.lastFileStart < lm.duration) →
      w.files (activeFile fmt lm) = none →
        ∃ w' : World, run fmt (lm, w) (ps.map Call.write) = some (lm, w') ∧
          w'.files = w.files ∧ w'.handles = w.handles ∧
          openedPaths w'.calls = openedPaths w.calls) := by
  refine ⟨?_, ?_, ?_⟩
  · intro fmt lm w p r reason hn he ho
    obtain ⟨_, hfiles, hhandles, hopen, _, _⟩ := getLogFileName_world fmt lm w _ r hn
    have hname := getLogFileName_name fmt lm w _ r hn he
    have hpath : r.lm.path ++ r.name = activeFile fmt r.lm := by
      rw [hname, activeFile, List.append_assoc]
    have ho' : r.w.openErr (activeFile fmt r.lm) = some reason := by
      rw [hopen]; exact ho
    refine ⟨⟨0, some (lit "logman: could not open log file: " ++
        (lit "open " ++ activeFile fmt r.lm ++ lit ": " ++ reason)), r.lm,
        { r.w with calls := r.w.calls ++ [SysCall.openFile (r.lm.path ++ r.name)] }⟩,
      ?_, rfl, rfl, rfl, hfiles, hhandles⟩
    simp only [Write, hn, he, OpenFile, hpath, ho']
  · intro fmt lm w p h0 hd hel hab
    exact Write_file_absent fmt lm w p h0 hd hel hab
  · intro fmt lm w ps h0 hd hel hab
    obtain ⟨w', hrun, hf, hh, _, _, ho⟩ := retries_file_absent fmt lm h0 hd ps w hel hab
    exact ⟨w', hrun, hf, hh, ho⟩

theorem Write_open_failure_witness :
    (Write sampleFormat (sampleActive 63839664000000000000) (sampleWorld.after 1 [])
        [104, 105]).map (fun r => (r.n, r.lm.lastFileStart, r.w.handles)) =
      some (0, 63839664000000000000, []) := by
  rw [Write_open_failure.2.1 sampleFormat (sampleActive 63839664000000000000)
    (sampleWorld.after 1 []) [104, 105] (by decide) (by decide) (by decide) (by decide)]
  decide


end Logman
